import Mathlib

set_option maxHeartbeats 1000000

/-!
Shallow embedding of the contract-enforcement core of CrossHair
(src/crosshair/enforce.py, with identity helpers from src/crosshair/util.py).

The embedding has three parts:

* A heap-based model of a single call through `EnforcementWrapper.wrapper`
  (enforce.py lines 23-62): Python objects live in a heap indexed by
  references, callables are records carrying a signature, defining-scope
  globals and a body, and the wrapper performs argument binding,
  shallow-copy snapshotting, the mutable-argument check, precondition
  evaluation, delegation and postcondition evaluation exactly as the
  source does.

* An identity-based model of the `EnforcedConditions` scope
  (enforce.py lines 64-149): values in caller environments are function,
  singledispatcher, class or other objects identified by numeric ids;
  wrapping allocates fresh ids, and the wrapper cache / identity registry
  are association lists over ids.

* A model of the Python exception classes involved
  (enforce.py lines 14-18): `PreconditionFailed` and `PostconditionFailed`
  derive from `BaseException`, not from `Exception`.

The condition provider (crosshair.condition_parser) is not part of the
sources under verification; following the spec (sections 1, 2 and 6) it is
treated as an external black box: conditions are opaque boolean-valued
expressions with a source location, and `Conditions` bundles the call
signature, ordered precondition and postcondition lists and the declared
mutable-argument names, exactly the fields enforce.py consumes.
-/

namespace CrossHairEnforce

/-- A Python object reference (object identity). -/
abbrev Ref := Nat

/-- A Python object, flattened: `None`, an int, a mutable list of ints, or a
dict from strings to object references (used for the `__old__` snapshot
dict built by the wrapper). -/
inductive Obj where
  | vnone
  | vint (i : Int)
  | vlist (elems : List Int)
  | vdict (entries : List (String × Ref))
  deriving DecidableEq, Repr

/-- The heap: object contents indexed by reference. -/
abbrev Heap := List Obj

/-- Dereference: out-of-range references read as `None`. -/
def getObj (h : Heap) (r : Ref) : Obj := h.getD r Obj.vnone

/-- Allocate a fresh object, returning the extended heap and new reference. -/
def heapAlloc (h : Heap) (o : Obj) : Heap × Ref := (h ++ [o], h.length)

/-- The exceptions that can cross a wrapped call: the two failure kinds
declared in enforce.py lines 14-18, `TypeError` from argument binding, and
arbitrary exceptions raised by the underlying callable. -/
inductive PyErr where
  | preconditionFailed (msg : String)
  | postconditionFailed (msg : String)
  | typeError (msg : String)
  | userError (code : Nat)
  deriving DecidableEq, Repr

/-- Python-dict lookup over an association list where later entries
override earlier ones, as in a dict built by `{**d1, **d2}` merges. -/
def dlookup : List (String × Ref) → String → Option Ref
  | [], _ => none
  | p :: rest, k =>
    match dlookup rest k with
    | some v => some v
    | none => if p.1 = k then some p.2 else none

/-- One parameter of a call signature: a name and an optional default
(default values are pre-existing objects, hence references). -/
structure Param where
  name : String
  default : Option Ref
  deriving DecidableEq, Repr

/-- A call signature: the ordered parameters (all positional-or-keyword,
which is the shape of the callables enforce.py instruments). -/
structure Sig where
  params : List Param
  deriving DecidableEq, Repr

/-- Bind one parameter at position `i`: positional argument if present,
else keyword argument, else declared default, else a binding error. -/
def bindParams (a : List Ref) (kw : List (String × Ref)) :
    Nat → List Param → Except PyErr (List (String × Ref))
  | _, [] => Except.ok []
  | i, p :: rest =>
    let v? : Except PyErr Ref :=
      if h : i < a.length then Except.ok (a.get ⟨i, h⟩)
      else
        match dlookup kw p.name with
        | some r => Except.ok r
        | none =>
          match p.default with
          | some r => Except.ok r
          | none => Except.error (PyErr.typeError ("missing a required argument: " ++ p.name))
    match v? with
    | Except.error e => Except.error e
    | Except.ok r =>
      match bindParams a kw (i + 1) rest with
      | Except.error e => Except.error e
      | Except.ok restBound => Except.ok ((p.name, r) :: restBound)

/-- `signature.bind(*a, **kw)` followed by `apply_defaults()`
(enforce.py lines 36-37): on success every parameter is bound, in
signature order. -/
def Sig.bind (sig : Sig) (a : List Ref) (kw : List (String × Ref)) :
    Except PyErr (List (String × Ref)) :=
  if sig.params.length < a.length then
    Except.error (PyErr.typeError "too many positional arguments")
  else if kw.any (fun q => ((sig.params.take a.length).map Param.name).contains q.1) then
    Except.error (PyErr.typeError "got multiple values for argument")
  else if kw.any (fun q => !((sig.params.map Param.name).contains q.1)) then
    Except.error (PyErr.typeError "got an unexpected keyword argument")
  else bindParams a kw 0 sig.params

/-- Modelled from the spec: a single condition as produced by the external
condition provider (crosshair.condition_parser, not among the sources) —
an opaque boolean-valued expression evaluated against a binding
environment and the heap, plus the source location enforce.py interpolates
into failure messages (`condition.expr`, `condition.filename`,
`condition.line`). -/
structure Cond where
  expr : List (String × Ref) → Heap → Bool
  filename : String
  line : Nat

/-- Modelled from the spec: the `Conditions` bundle consumed by
enforce.py — call signature, ordered preconditions, ordered
postconditions, and declared mutable-argument names. -/
structure Conditions where
  sig : Sig
  pre : List Cond
  post : List Cond
  mutable_args : List String

/-- An instrumentable callable: its identity, signature, defining-scope
globals (`fn_globals(fn)` in the source, an external helper), and its
body. The body receives the contents of its bound arguments and either
raises or returns updated contents for those arguments (its in-place
mutations) together with the returned object. -/
structure Fn where
  id : Nat
  sig : Sig
  globals : List (String × Ref)
  body : List Obj → Except PyErr (List Obj × Obj)

/-- Apply a list of in-place writes to the heap. -/
def writeBack : Heap → List (Ref × Obj) → Heap
  | h, [] => h
  | h, (r, o) :: rest => writeBack (h.set r o) rest

/-- Direct invocation `fn(*a, **kw)`: bind against the callable's own
signature, run the body on the argument contents, apply its in-place
writes, allocate the returned object. -/
def callFn (fn : Fn) (a : List Ref) (kw : List (String × Ref)) (h : Heap) :
    Except PyErr (Heap × Ref) :=
  match fn.sig.bind a kw with
  | Except.error e => Except.error e
  | Except.ok bound =>
    let refs := bound.map Prod.snd
    let vals := refs.map (getObj h)
    match fn.body vals with
    | Except.error e => Except.error e
    | Except.ok (newVals, retObj) =>
      let h' := writeBack h (refs.zip newVals)
      heapAlloc h' retObj |> (fun p => Except.ok (p.1, p.2))

/-- The snapshot loop (enforce.py lines 38-41): for every bound argument,
`old[argname] = copy.copy(argval)` — allocate a shallow copy of the
argument's current contents. Returns the extended heap and the `old`
dict entries, in parameter order. -/
def buildOld (h : Heap) : List (String × Ref) → Heap × List (String × Ref)
  | [] => (h, [])
  | (n, r) :: rest =>
    let alloc := heapAlloc h (getObj h r)
    let next := buildOld alloc.1 rest
    (next.1, (n, alloc.2) :: next.2)

/-- The precondition loop (enforce.py lines 47-51): evaluate each
precondition in order against `{**fn_globals(fn), **bound_args.arguments}`;
the first false one raises `PreconditionFailed` identifying its source
location. -/
def checkPres (fn : Fn) (bound : List (String × Ref)) (h : Heap) :
    List Cond → Except PyErr Unit
  | [] => Except.ok ()
  | c :: rest =>
    if c.expr (fn.globals ++ bound) h then checkPres fn bound h rest
    else Except.error (PyErr.preconditionFailed
      ("Precondition failed at " ++ c.filename ++ ":" ++ toString c.line))

/-- The postcondition loop (enforce.py lines 56-59): evaluate each
postcondition in order against the prepared environment; the first false
one raises `PostconditionFailed` identifying its source location. -/
def checkPosts (args : List (String × Ref)) (h : Heap) :
    List Cond → Except PyErr Unit
  | [] => Except.ok ()
  | c :: rest =>
    if c.expr args h then checkPosts args h rest
    else Except.error (PyErr.postconditionFailed
      ("Postcondition failed at " ++ c.filename ++ ":" ++ toString c.line))

/-- The message of enforce.py line 45. -/
def unrecognizedMsg (remaining : List String) : String :=
  "Unrecognized mutable argument(s) in postcondition: \"" ++
    String.intercalate "," remaining ++ "\""

/-- One call through `EnforcementWrapper.wrapper` (enforce.py lines
32-61), with the default identity interceptor (so the delegated call is
`fn` itself): reentrancy bypass, argument binding, snapshotting, the
mutable-argument check, precondition evaluation, delegation, and
postcondition evaluation against
`{**fn_globals(fn), **bound_args.arguments, '__return__': ret, '__old__': old}`. -/
def wrapperCall (fn : Fn) (conditions : Conditions) (fns_enforcing : List Nat)
    (a : List Ref) (kw : List (String × Ref)) (h : Heap) :
    Except PyErr (Heap × Ref) :=
  if fns_enforcing.contains fn.id then callFn fn a kw h
  else
    match conditions.sig.bind a kw with
    | Except.error e => Except.error e
    | Except.ok bound =>
      let built := buildOld h bound
      let remaining := conditions.mutable_args.filter (fun m => (dlookup bound m).isNone)
      if !remaining.isEmpty then
        Except.error (PyErr.postconditionFailed (unrecognizedMsg remaining))
      else
        match checkPres fn bound built.1 conditions.pre with
        | Except.error e => Except.error e
        | Except.ok _ =>
          match callFn fn a kw built.1 with
          | Except.error e => Except.error e
          | Except.ok (h2, ret) =>
            let allocOld := heapAlloc h2 (Obj.vdict built.2)
            let lcls := bound ++ [("__return__", ret), ("__old__", allocOld.2)]
            let args := fn.globals ++ lcls
            match checkPosts args allocOld.1 conditions.post with
            | Except.error e => Except.error e
            | Except.ok _ => Except.ok (allocOld.1, ret)

/-- The binding environment and heap against which the postconditions of a
non-reentrant successful call are evaluated (enforce.py lines 52-55),
recomputed from the call's inputs. -/
def postEnvOf (fn : Fn) (conditions : Conditions) (a : List Ref)
    (kw : List (String × Ref)) (h : Heap) :
    Option (List (String × Ref) × Heap) :=
  match conditions.sig.bind a kw with
  | Except.error _ => none
  | Except.ok bound =>
    let built := buildOld h bound
    match callFn fn a kw built.1 with
    | Except.error _ => none
    | Except.ok (h2, ret) =>
      let allocOld := heapAlloc h2 (Obj.vdict built.2)
      some (fn.globals ++ (bound ++ [("__return__", ret), ("__old__", allocOld.2)]), allocOld.1)

/-! ### The enforcement scope (enforce.py lines 64-149)

Scope-level values carry object identity as a numeric id: plain function
objects, singledispatchers (function objects carrying a registry of
overload implementations), class objects (whose method tables live in
shared mutable state), and any other value.  The scope state holds the
wrapper cache (`wrapper_map`), the identity registry (`original_map`,
keyed by wrapper object identity), the fresh-identity counter used when a
new wrapper object or dispatcher object is created, and the shared class
method tables mutated by `setattr`. -/

inductive SVal where
  | func (id : Nat)
  | disp (id : Nat) (impls : List Nat)
  | cls (id : Nat)
  | other (id : Nat)
  deriving DecidableEq, Repr

/-- Modelled from the spec: the external condition provider's answers as
consumed by the scope — `get_fn_conditions(fn).has_any()`,
`get_class_conditions(cls).has_any()`, and per-class method conditions
(`class_conditions.methods.get(method)`, keyed by method object,
with that bundle's `has_any()`). -/
structure Provider where
  fnHasConds : Nat → Bool
  classHasAny : Nat → Bool
  classMethodConds : Nat → Nat → Option Bool

/-- First-match association lookup over identity-keyed maps (Python dict
lookup; keys are inserted at most once). -/
def nlookup : List (Nat × Nat) → Nat → Option Nat
  | [], _ => none
  | p :: rest, k => if p.1 = k then some p.2 else nlookup rest k

/-- The mutable state of one `EnforcedConditions` scope instance plus the
ambient world: fresh-id counter, `wrapper_map` (original → wrapper),
`original_map` (wrapper identity → original), and the shared class method
tables (class id → method name → function id). -/
structure EState where
  nextId : Nat
  wrapper_map : List (Nat × Nat)
  original_map : List (Nat × Nat)
  clsTables : List (Nat × List (String × Nat))
  deriving DecidableEq, Repr

/-- A freshly-constructed scope (`EnforcedConditions.__init__`, lines
65-70): empty wrapper cache and identity registry, over a world whose
objects all have ids below `n` and whose class tables are `tables`. -/
def initState (n : Nat) (tables : List (Nat × List (String × Nat))) : EState :=
  { nextId := n, wrapper_map := [], original_map := [], clsTables := tables }

/-- `setattr(cls, name, m)` on a method table: replace the named entry in
place. -/
def tset : List (String × Nat) → String → Nat → List (String × Nat)
  | [], _, _ => []
  | p :: rest, k, v => if p.1 = k then (k, v) :: rest else p :: tset rest k v

/-- Update one class's method table in the shared tables. -/
def tablesSet (ts : List (Nat × List (String × Nat))) (c : Nat) (name : String)
    (m : Nat) : List (Nat × List (String × Nat)) :=
  ts.map (fun e => if e.1 = c then (e.1, tset e.2 name m) else e)

/-- Read one class's method table (`inspect.getmembers`). -/
def clsGet (ts : List (Nat × List (String × Nat))) (c : Nat) : List (String × Nat) :=
  match ts with
  | [] => []
  | e :: rest => if e.1 = c then e.2 else clsGet rest c

/-- `EnforcedConditions._wrap_fn` (lines 134-149): consult the wrapper
cache, then the identity registry (never re-wrap a wrapper), then the
conditions (explicitly supplied, else from the provider); a callable with
conditions gets a fresh wrapper object, one without is its own wrapper;
both cases record `wrapper_map[fn]` and `original_map[wrapper]`. -/
def wrap_fn (P : Provider) (s : EState) (fn : Nat) (conds : Option Bool) :
    EState × Nat :=
  match nlookup s.wrapper_map fn with
  | some w => (s, w)
  | none =>
    if (nlookup s.original_map fn).isSome then (s, fn)
    else if conds.getD (P.fnHasConds fn) then
      ({ s with nextId := s.nextId + 1,
                wrapper_map := (fn, s.nextId) :: s.wrapper_map,
                original_map := (s.nextId, fn) :: s.original_map }, s.nextId)
    else
      ({ s with wrapper_map := (fn, fn) :: s.wrapper_map,
                original_map := (fn, fn) :: s.original_map }, fn)

/-- `EnforcedConditions.is_enforcement_wrapper` (lines 89-90): a value is
reported instrumented iff its identity has an `original_map` entry; only
function objects are ever registered. -/
def is_enforcement_wrapper (s : EState) (v : SVal) : Bool :=
  match v with
  | SVal.func f => (nlookup s.original_map f).isSome
  | _ => false

/-- `EnforcedConditions._wrap_class` (lines 72-80): walk a snapshot of the
class's methods; each method with class conditions is wrapped via
`_wrap_fn` and patched onto the class object itself. -/
def wrap_class_go (P : Provider) (c : Nat) :
    EState → List (String × Nat) → EState
  | s, [] => s
  | s, (name, m) :: rest =>
    match P.classMethodConds c m with
    | none => wrap_class_go P c s rest
    | some hasAny =>
      let sw := wrap_fn P s m (some hasAny)
      wrap_class_go P c
        { sw.1 with clsTables := tablesSet sw.1.clsTables c name sw.2 } rest

/-- Wrap every contract-carrying method of class `c` in place. -/
def wrap_class (P : Provider) (s : EState) (c : Nat) : EState :=
  wrap_class_go P c s (clsGet s.clsTables c)

/-- `EnforcedConditions._transform_singledispatch` (lines 82-87): build a
brand-new dispatcher object (fresh identity) whose registry holds the
transformed overloads, in registration order. -/
def map_state (t : EState → Nat → EState × Nat) :
    EState → List Nat → EState × List Nat
  | s, [] => (s, [])
  | s, f :: rest =>
    let p := t s f
    let q := map_state t p.1 rest
    (q.1, p.2 :: q.2)

/-- Transform a dispatcher's overloads and allocate the new dispatcher
object. -/
def transform_singledispatch (s : EState) (impls : List Nat)
    (t : EState → Nat → EState × Nat) : EState × SVal :=
  let p := map_state t s impls
  ({ p.1 with nextId := p.1.nextId + 1 }, SVal.disp p.1.nextId p.2)

/-- One binding step of `EnforcedConditions.__enter__` (lines 92-107):
singledispatchers are rebuilt with wrapped overloads; plain functions are
wrapped (binding untouched when `_wrap_fn` returns the value itself);
classes with any class conditions are patched in place, the binding kept;
all other values are untouched. -/
def enter_value (P : Provider) (s : EState) (v : SVal) : EState × SVal :=
  match v with
  | SVal.func f =>
    let p := wrap_fn P s f none
    if p.2 = f then (p.1, SVal.func f) else (p.1, SVal.func p.2)
  | SVal.disp _ impls =>
    transform_singledispatch s impls (fun s' f => wrap_fn P s' f none)
  | SVal.cls c => if P.classHasAny c then (wrap_class P s c, v) else (s, v)
  | SVal.other _ => (s, v)

/-- `EnforcedConditions._unwrap_class` (lines 129-132): restore every
method that is an instrumented wrapper to its registered original. -/
def unwrap_class_go (c : Nat) : EState → List (String × Nat) → EState
  | s, [] => s
  | s, (name, m) :: rest =>
    match nlookup s.original_map m with
    | some orig =>
      unwrap_class_go c { s with clsTables := tablesSet s.clsTables c name orig } rest
    | none => unwrap_class_go c s rest

/-- Restore class `c`'s instrumented methods. -/
def unwrap_class (s : EState) (c : Nat) : EState :=
  unwrap_class_go c s (clsGet s.clsTables c)

/-- `EnforcedConditions._unwrap` (lines 120-127): an instrumented wrapper
becomes its registered original; a singledispatcher is rebuilt with each
overload unwrapped (a fresh dispatcher object); a class has its methods
restored in place and the binding kept; anything else is returned
unchanged. -/
def unwrap_value (s : EState) (v : SVal) : EState × SVal :=
  match v with
  | SVal.func f =>
    match nlookup s.original_map f with
    | some orig => (s, SVal.func orig)
    | none => (s, v)
  | SVal.disp _ impls =>
    transform_singledispatch s impls
      (fun s' f => (s', (nlookup s'.original_map f).getD f))
  | SVal.cls c => (unwrap_class s c, v)
  | SVal.other _ => (s, v)

/-- `__enter__` over one environment: each binding is processed in order
and rebound to the computed value (keys preserved). -/
def enter_env (P : Provider) : EState → List (String × SVal) →
    EState × List (String × SVal)
  | s, [] => (s, [])
  | s, (k, v) :: rest =>
    let p := enter_value P s v
    let q := enter_env P p.1 rest
    (q.1, (k, p.2) :: q.2)

/-- `__enter__` (lines 92-109) over the scope's environments. -/
def enter_scope (P : Provider) : EState → List (List (String × SVal)) →
    EState × List (List (String × SVal))
  | s, [] => (s, [])
  | s, env :: rest =>
    let p := enter_env P s env
    let q := enter_scope P p.1 rest
    (q.1, p.2 :: q.2)

/-- `__exit__` over one environment: every binding is passed through
`_unwrap` and rebound. -/
def exit_env : EState → List (String × SVal) → EState × List (String × SVal)
  | s, [] => (s, [])
  | s, (k, v) :: rest =>
    let p := unwrap_value s v
    let q := exit_env p.1 rest
    (q.1, (k, p.2) :: q.2)

/-- `__exit__` (lines 111-118) over the scope's environments. -/
def exit_scope : EState → List (List (String × SVal)) →
    EState × List (List (String × SVal))
  | s, [] => (s, [])
  | s, env :: rest =>
    let p := exit_env s env
    let q := exit_scope p.1 rest
    (q.1, p.2 :: q.2)

/-! ### Exception classes (enforce.py lines 14-18)

`class PreconditionFailed(BaseException)` and
`class PostconditionFailed(BaseException)`: both failure kinds derive
directly from `BaseException`, bypassing `Exception`.  The Python builtin
hierarchy fragment (`Exception` derives from `BaseException`) is modelled
alongside. -/

inductive PyClass where
  | baseExceptionClass
  | exceptionClass
  | preconditionFailedClass
  | postconditionFailedClass
  deriving DecidableEq, Repr

/-- The base-class declaration of each class: enforce.py line 14 declares
`PreconditionFailed(BaseException)`, line 17 declares
`PostconditionFailed(BaseException)`; `Exception` is the Python builtin
deriving from `BaseException`. -/
def parentOf : PyClass → Option PyClass
  | PyClass.baseExceptionClass => none
  | PyClass.exceptionClass => some PyClass.baseExceptionClass
  | PyClass.preconditionFailedClass => some PyClass.baseExceptionClass
  | PyClass.postconditionFailedClass => some PyClass.baseExceptionClass

/-- Walk the base-class chain (fuelled; the hierarchy has depth 2). -/
def ancestorsFuel : Nat → Option PyClass → List PyClass
  | 0, _ => []
  | _ + 1, none => []
  | n + 1, some c => c :: ancestorsFuel n (parentOf c)

/-- The method-resolution chain of a class: itself and its ancestors. -/
def mro (c : PyClass) : List PyClass := ancestorsFuel 4 (some c)

/-- `issubclass(c, d)` on the modelled hierarchy. -/
def isSubclassOf (c d : PyClass) : Bool := (mro c).contains d

/-- The class of each raised exception value: enforce.py raises
`PreconditionFailed` at line 51 and `PostconditionFailed` at lines 45 and
59; binding failures are `TypeError` and user exceptions are modelled as
`Exception`-derived (their class is irrelevant to the claims). -/
def classOf : PyErr → PyClass
  | PyErr.preconditionFailed _ => PyClass.preconditionFailedClass
  | PyErr.postconditionFailed _ => PyClass.postconditionFailedClass
  | PyErr.typeError _ => PyClass.exceptionClass
  | PyErr.userError _ => PyClass.exceptionClass

/-- `except handler:` observes a propagating exception `e` exactly when
the class of `e` is a subclass of `handler`. -/
def handlerCatches (handler : PyClass) (e : PyErr) : Bool :=
  isSubclassOf (classOf e) handler

/-! ### Predicates for the activation/deactivation round-trip -/

/-- All object ids carried by a value lie below `N` (the world's ids at
scope-construction time). -/
def valBound (N : Nat) : SVal → Prop
  | SVal.func f => f < N
  | SVal.disp d impls => d < N ∧ ∀ f ∈ impls, f < N
  | SVal.cls c => c < N
  | SVal.other i => i < N

/-- Scope-state invariant maintained during activation: ids of fresh
wrapper objects start at `N`; every cached wrapper is registered back to
its original; registry entries keyed below `N` are self-maps
(conditionless callables); ids at or above the counter are untouched. -/
def Inv (N : Nat) (s : EState) : Prop :=
  N ≤ s.nextId ∧
  (∀ k w, nlookup s.wrapper_map k = some w →
    k < N ∧ nlookup s.original_map w = some k) ∧
  (∀ k v, nlookup s.original_map k = some v → k < N → v = k) ∧
  (∀ k, s.nextId ≤ k →
    nlookup s.wrapper_map k = none ∧ nlookup s.original_map k = none)

/-- The identity registry only grows during activation. -/
def Grows (s s' : EState) : Prop :=
  ∀ k v, nlookup s.original_map k = some v → nlookup s'.original_map k = some v

/-- Class-table invariant during activation: every method entry is either
an original object (id below `N`) or a registered wrapper. -/
def TInv (N : Nat) (s : EState) : Prop :=
  ∀ t ∈ s.clsTables, ∀ e ∈ t.2, e.2 < N ∨ (nlookup s.original_map e.2).isSome = true

/-- The value installed for a binding unwinds to the original under the
registry: an installed function unwraps through `original_map`; an
installed dispatcher's overloads unwrap pointwise; classes and other
values are installed unchanged. -/
def UnwrapsTo (s : EState) (v' v : SVal) : Prop :=
  match v', v with
  | SVal.func w, SVal.func f => nlookup s.original_map w = some f
  | SVal.disp _ impls', SVal.disp _ impls =>
    List.Forall₂ (fun w f => nlookup s.original_map w = some f) impls' impls
  | SVal.cls c', SVal.cls c => c' = c
  | SVal.other i', SVal.other i => i' = i
  | _, _ => False

/-- What deactivation restores a binding to: the very same value for
everything except a type-dispatching callable, which comes back as a
dispatcher object over the original implementations (a fresh object). -/
def restoredVal : SVal → SVal → Prop
  | SVal.disp _ impls, SVal.disp _ impls' => impls' = impls
  | SVal.disp _ _, SVal.func _ => False
  | SVal.disp _ _, SVal.cls _ => False
  | SVal.disp _ _, SVal.other _ => False
  | v, v' => v' = v

/-! ### Scope support lemmas -/

/-- Restoring class methods never touches the wrapper cache, the identity
registry, or the id counter. -/
theorem unwrap_class_go_state (c : Nat) (l : List (String × Nat)) (s : EState) :
    (unwrap_class_go c s l).original_map = s.original_map ∧
    (unwrap_class_go c s l).wrapper_map = s.wrapper_map ∧
    (unwrap_class_go c s l).nextId = s.nextId := by
  induction l generalizing s with
  | nil => exact ⟨rfl, rfl, rfl⟩
  | cons p rest ih =>
    obtain ⟨name, m⟩ := p
    cases hm : nlookup s.original_map m with
    | none =>
      simp only [unwrap_class_go, hm]
      exact ih s
    | some orig =>
      simp only [unwrap_class_go, hm]
      exact ih _

/-- A state transformer that leaves the state unchanged makes `map_state`
a pure map. -/
theorem map_state_pure (t : EState → Nat → EState × Nat)
    (ht : ∀ s f, (t s f).1 = s) (s : EState) (l : List Nat) :
    map_state t s l = (s, l.map (fun f => (t s f).2)) := by
  induction l generalizing s with
  | nil => rfl
  | cons f rest ih =>
    simp only [map_state, ht, ih, List.map_cons]

/-- `_unwrap` never touches the wrapper cache or the identity registry. -/
theorem unwrap_value_maps (s : EState) (v : SVal) :
    (unwrap_value s v).1.original_map = s.original_map ∧
    (unwrap_value s v).1.wrapper_map = s.wrapper_map := by
  cases v with
  | func f =>
    cases hm : nlookup s.original_map f with
    | none => simp [unwrap_value, hm]
    | some orig => simp [unwrap_value, hm]
  | disp d impls =>
    have hms := map_state_pure (fun s' f => (s', (nlookup s'.original_map f).getD f))
      (fun _ _ => rfl) s impls
    simp [unwrap_value, transform_singledispatch, hms]
  | cls c =>
    obtain ⟨h1, h2, h3⟩ := unwrap_class_go_state c (clsGet s.clsTables c) s
    exact ⟨h1, h2⟩
  | other i => exact ⟨rfl, rfl⟩

/-- `__exit__` over one environment preserves both identity maps. -/
theorem exit_env_maps (env : List (String × SVal)) (s : EState) :
    (exit_env s env).1.original_map = s.original_map ∧
    (exit_env s env).1.wrapper_map = s.wrapper_map := by
  induction env generalizing s with
  | nil => exact ⟨rfl, rfl⟩
  | cons p rest ih =>
    obtain ⟨k, v⟩ := p
    show ((exit_env (unwrap_value s v).1 rest).1).original_map = _ ∧ _
    obtain ⟨h1, h2⟩ := unwrap_value_maps s v
    obtain ⟨h3, h4⟩ := ih (unwrap_value s v).1
    exact ⟨h3.trans h1, h4.trans h2⟩

/-- `__exit__` preserves both identity maps: deactivation removes no
registry entries. -/
theorem exit_scope_maps (envs : List (List (String × SVal))) (s : EState) :
    (exit_scope s envs).1.original_map = s.original_map ∧
    (exit_scope s envs).1.wrapper_map = s.wrapper_map := by
  induction envs generalizing s with
  | nil => exact ⟨rfl, rfl⟩
  | cons env rest ih =>
    show ((exit_scope (exit_env s env).1 rest).1).original_map = _ ∧ _
    obtain ⟨h1, h2⟩ := exit_env_maps env s
    obtain ⟨h3, h4⟩ := ih (exit_env s env).1
    exact ⟨h3.trans h1, h4.trans h2⟩

/-! ### Activation invariants -/

theorem nlookup_cons (a b k : Nat) (m : List (Nat × Nat)) :
    nlookup ((a, b) :: m) k = if a = k then some b else nlookup m k := rfl

theorem grows_refl (s : EState) : Grows s s := fun _ _ h => h

theorem grows_trans {s1 s2 s3 : EState} (h1 : Grows s1 s2) (h2 : Grows s2 s3) :
    Grows s1 s3 := fun k v h => h2 k v (h1 k v h)

/-- `UnwrapsTo` only consults the registry, which grows monotonically. -/
theorem unwrapsTo_mono {s s' : EState} (hg : Grows s s') {v' v : SVal}
    (h : UnwrapsTo s v' v) : UnwrapsTo s' v' v := by
  cases v' <;> cases v <;> try exact h
  · exact hg _ _ h
  · exact List.Forall₂.imp (fun a b hab => hg _ _ hab) h

/-- `UnwrapsTo` transports along registry equality. -/
theorem unwrapsTo_eqmap {s s' : EState} (he : s'.original_map = s.original_map)
    {v' v : SVal} (h : UnwrapsTo s v' v) : UnwrapsTo s' v' v := by
  cases v' <;> cases v <;> simp only [UnwrapsTo, he] at h ⊢ <;> exact h

/-- The class-table invariant transports along registry growth when the
tables themselves are unchanged. -/
theorem tInv_mono {N : Nat} {s s' : EState} (hg : Grows s s')
    (ht : s'.clsTables = s.clsTables) (h : TInv N s) : TInv N s' := by
  intro t htm e hem
  rcases h t (by rw [← ht]; exact htm) e hem with hlt | hsome
  · exact Or.inl hlt
  · obtain ⟨v, hv⟩ := Option.isSome_iff_exists.mp hsome
    exact Or.inr (Option.isSome_iff_exists.mpr ⟨v, hg _ _ hv⟩)

/-- `_wrap_fn` on an original object (id below `N`): the invariant is
preserved, the registry grows, the returned value is registered back to
its argument, and the class tables are untouched. -/
theorem wrap_fn_spec (P : Provider) (N : Nat) (s : EState) (f : Nat)
    (oc : Option Bool) (hInv : Inv N s) (hf : f < N) :
    Inv N (wrap_fn P s f oc).1 ∧ Grows s (wrap_fn P s f oc).1 ∧
    nlookup (wrap_fn P s f oc).1.original_map (wrap_fn P s f oc).2 = some f ∧
    (wrap_fn P s f oc).1.clsTables = s.clsTables := by
  obtain ⟨hN, hwm, hom, hfresh⟩ := hInv
  cases hc : nlookup s.wrapper_map f with
  | some w =>
    have heq : wrap_fn P s f oc = (s, w) := by
      unfold wrap_fn
      rw [hc]
    rw [heq]
    exact ⟨⟨hN, hwm, hom, hfresh⟩, grows_refl s, (hwm f w hc).2, rfl⟩
  | none =>
    cases ho : nlookup s.original_map f with
    | some g =>
      have hgf : g = f := hom f g ho hf
      have heq : wrap_fn P s f oc = (s, f) := by
        unfold wrap_fn
        rw [hc, ho]
        rfl
      rw [heq]
      exact ⟨⟨hN, hwm, hom, hfresh⟩, grows_refl s, by rw [ho, hgf], rfl⟩
    | none =>
      cases hca : oc.getD (P.fnHasConds f) with
      | true =>
        have heq : wrap_fn P s f oc =
            ({ s with nextId := s.nextId + 1,
                      wrapper_map := (f, s.nextId) :: s.wrapper_map,
                      original_map := (s.nextId, f) :: s.original_map }, s.nextId) := by
          unfold wrap_fn
          rw [hc, ho, hca]
          rfl
        rw [heq]
        refine ⟨⟨Nat.le_succ_of_le hN, ?_, ?_, ?_⟩, ?_, ?_, rfl⟩
        · intro k w hkl
          rw [nlookup_cons] at hkl
          by_cases hfk : f = k
          · rw [if_pos hfk] at hkl
            injection hkl with hw
            subst hfk
            subst hw
            exact ⟨hf, by rw [nlookup_cons, if_pos rfl]⟩
          · rw [if_neg hfk] at hkl
            obtain ⟨hkN, hwreg⟩ := hwm k w hkl
            refine ⟨hkN, ?_⟩
            rw [nlookup_cons]
            have hnw : s.nextId ≠ w := by
              intro he
              rw [(hfresh w (Nat.le_of_eq he)).2] at hwreg
              cases hwreg
            rw [if_neg hnw]
            exact hwreg
        · intro k v hkl hkN
          rw [nlookup_cons] at hkl
          by_cases hik : s.nextId = k
          · exact absurd hkN (by omega)
          · rw [if_neg hik] at hkl
            exact hom k v hkl hkN
        · intro k hk
          have hk' : s.nextId ≤ k := Nat.le_of_succ_le hk
          constructor
          · rw [nlookup_cons, if_neg (by
              intro he
              subst he
              exact Nat.lt_irrefl f (Nat.lt_of_lt_of_le (Nat.lt_of_lt_of_le hf hN) hk'))]
            exact (hfresh k hk').1
          · rw [nlookup_cons, if_neg (by
              intro he
              subst he
              exact Nat.not_succ_le_self s.nextId hk)]
            exact (hfresh k hk').2
        · intro k v hkl
          rw [nlookup_cons]
          have hnk : s.nextId ≠ k := by
            intro he
            rw [(hfresh k (Nat.le_of_eq he)).2] at hkl
            cases hkl
          rw [if_neg hnk]
          exact hkl
        · rw [nlookup_cons, if_pos rfl]
      | false =>
        have heq : wrap_fn P s f oc =
            ({ s with wrapper_map := (f, f) :: s.wrapper_map,
                      original_map := (f, f) :: s.original_map }, f) := by
          unfold wrap_fn
          rw [hc, ho, hca]
          rfl
        rw [heq]
        refine ⟨⟨hN, ?_, ?_, ?_⟩, ?_, ?_, rfl⟩
        · intro k w hkl
          rw [nlookup_cons] at hkl
          by_cases hfk : f = k
          · rw [if_pos hfk] at hkl
            injection hkl with hw
            subst hfk
            subst hw
            exact ⟨hf, by rw [nlookup_cons, if_pos rfl]⟩
          · rw [if_neg hfk] at hkl
            obtain ⟨hkN, hwreg⟩ := hwm k w hkl
            refine ⟨hkN, ?_⟩
            rw [nlookup_cons]
            by_cases hfw : f = w
            · subst hfw
              rw [ho] at hwreg
              cases hwreg
            · rw [if_neg hfw]
              exact hwreg
        · intro k v hkl hkN
          rw [nlookup_cons] at hkl
          by_cases hfk : f = k
          · rw [if_pos hfk] at hkl
            injection hkl with hv
            exact hv.symm.trans hfk
          · rw [if_neg hfk] at hkl
            exact hom k v hkl hkN
        · intro k hk
          have hk2 : s.nextId ≤ k := hk
          have hfk : f ≠ k := by
            intro he
            subst he
            exact Nat.lt_irrefl f (Nat.lt_of_lt_of_le (Nat.lt_of_lt_of_le hf hN) hk2)
          constructor
          · rw [nlookup_cons, if_neg hfk]
            exact (hfresh k hk).1
          · rw [nlookup_cons, if_neg hfk]
            exact (hfresh k hk).2
        · intro k v hkl
          rw [nlookup_cons]
          by_cases hfk : f = k
          · subst hfk
            rw [ho] at hkl
            cases hkl
          · rw [if_neg hfk]
            exact hkl
        · rw [nlookup_cons, if_pos rfl]

theorem grows_isSome {s s' : EState} (hg : Grows s s') {x : Nat}
    (h : (nlookup s.original_map x).isSome = true) :
    (nlookup s'.original_map x).isSome = true := by
  obtain ⟨v, hv⟩ := Option.isSome_iff_exists.mp h
  exact Option.isSome_iff_exists.mpr ⟨v, hg _ _ hv⟩

theorem tset_mem {l : List (String × Nat)} {k : String} {v : Nat}
    {e : String × Nat} (h : e ∈ tset l k v) : e ∈ l ∨ e = (k, v) := by
  induction l with
  | nil => cases h
  | cons p rest ih =>
    by_cases hp : p.1 = k
    · rw [show tset (p :: rest) k v = (k, v) :: rest from by
        simp only [tset, if_pos hp]] at h
      rcases List.mem_cons.mp h with he | he
      · exact Or.inr he
      · exact Or.inl (List.mem_cons_of_mem _ he)
    · rw [show tset (p :: rest) k v = p :: tset rest k v from by
        simp only [tset, if_neg hp]] at h
      rcases List.mem_cons.mp h with he | he
      · exact Or.inl (he ▸ List.mem_cons_self _ _)
      · rcases ih he with h1 | h1
        · exact Or.inl (List.mem_cons_of_mem _ h1)
        · exact Or.inr h1

theorem tablesSet_entries {ts : List (Nat × List (String × Nat))} {c : Nat}
    {name : String} {w : Nat} {t' : Nat × List (String × Nat)}
    (h : t' ∈ tablesSet ts c name w) :
    ∃ t ∈ ts, ∀ e ∈ t'.2, e ∈ t.2 ∨ e = (name, w) := by
  obtain ⟨t, htm, hmap⟩ := List.mem_map.mp h
  by_cases hc : t.1 = c
  · rw [if_pos hc] at hmap
    refine ⟨t, htm, ?_⟩
    rw [← hmap]
    exact fun e he => tset_mem he
  · rw [if_neg hc] at hmap
    refine ⟨t, htm, ?_⟩
    rw [← hmap]
    exact fun e he => Or.inl he

theorem clsGet_mem {ts : List (Nat × List (String × Nat))} {c : Nat}
    {e : String × Nat} (h : e ∈ clsGet ts c) : ∃ t ∈ ts, e ∈ t.2 := by
  induction ts with
  | nil => cases h
  | cons t rest ih =>
    by_cases hc : t.1 = c
    · rw [show clsGet (t :: rest) c = t.2 from by simp only [clsGet, if_pos hc]] at h
      exact ⟨t, List.mem_cons_self _ _, h⟩
    · rw [show clsGet (t :: rest) c = clsGet rest c from by
        simp only [clsGet, if_neg hc]] at h
      obtain ⟨t', ht', he⟩ := ih h
      exact ⟨t', List.mem_cons_of_mem _ ht', he⟩

/-- `_wrap_fn` on a registered non-original object (a wrapper produced by
this scope, encountered again when a class is wrapped twice) returns it
unchanged without touching the state. -/
theorem wrap_fn_registered (P : Provider) (N : Nat) (s : EState) (f : Nat)
    (oc : Option Bool) (hInv : Inv N s) (hge : ¬ f < N)
    (hreg : (nlookup s.original_map f).isSome = true) :
    wrap_fn P s f oc = (s, f) := by
  obtain ⟨hN, hwm, hom, hfresh⟩ := hInv
  cases hc : nlookup s.wrapper_map f with
  | some w => exact absurd (hwm f w hc).1 hge
  | none => simp only [wrap_fn, hc, hreg, if_true]

/-- Walking a method snapshot whose entries are originals or registered
wrappers preserves the activation invariants while registering each
wrapped method. -/
theorem wrap_class_go_spec (P : Provider) (N : Nat) (c : Nat)
    (l : List (String × Nat)) (s : EState)
    (hInv : Inv N s) (hT : TInv N s)
    (hl : ∀ e ∈ l, e.2 < N ∨ (nlookup s.original_map e.2).isSome = true) :
    Inv N (wrap_class_go P c s l) ∧ Grows s (wrap_class_go P c s l) ∧
    TInv N (wrap_class_go P c s l) := by
  induction l generalizing s with
  | nil => exact ⟨hInv, grows_refl s, hT⟩
  | cons e rest ih =>
    obtain ⟨name, m⟩ := e
    cases hmc : P.classMethodConds c m with
    | none =>
      simp only [wrap_class_go, hmc]
      exact ih s hInv hT (fun e he => hl e (List.mem_cons_of_mem _ he))
    | some hasAny =>
      simp only [wrap_class_go, hmc]
      by_cases hmN : m < N
      · obtain ⟨hInv1, hG1, hw1, hTab1⟩ := wrap_fn_spec P N s m (some hasAny) hInv hmN
        have hT1 : TInv N { (wrap_fn P s m (some hasAny)).1 with
            clsTables := tablesSet (wrap_fn P s m (some hasAny)).1.clsTables c name
              (wrap_fn P s m (some hasAny)).2 } := by
          intro t' ht' e he
          rw [show ({ (wrap_fn P s m (some hasAny)).1 with
              clsTables := tablesSet (wrap_fn P s m (some hasAny)).1.clsTables c name
                (wrap_fn P s m (some hasAny)).2 } : EState).clsTables
            = tablesSet s.clsTables c name (wrap_fn P s m (some hasAny)).2 from by
              rw [← hTab1]] at ht'
          obtain ⟨t, htm, hsub⟩ := tablesSet_entries ht'
          rcases hsub e he with hold | hnew
          · rcases hT t htm e hold with hlt | hsome
            · exact Or.inl hlt
            · exact Or.inr (grows_isSome hG1 hsome)
          · right
            rw [hnew]
            simp only [hw1, Option.isSome_some]
        obtain ⟨hI2, hG2, hT2⟩ := ih
          { (wrap_fn P s m (some hasAny)).1 with
            clsTables := tablesSet (wrap_fn P s m (some hasAny)).1.clsTables c name
              (wrap_fn P s m (some hasAny)).2 } hInv1 hT1
          (fun e he => by
            rcases hl e (List.mem_cons_of_mem _ he) with hlt | hsome
            · exact Or.inl hlt
            · exact Or.inr (grows_isSome hG1 hsome))
        exact ⟨hI2, grows_trans hG1 hG2, hT2⟩
      · have hreg : (nlookup s.original_map m).isSome = true := by
          rcases hl (name, m) (List.mem_cons_self _ _) with hlt | hsome
          · exact absurd hlt hmN
          · exact hsome
        rw [wrap_fn_registered P N s m (some hasAny) hInv hmN hreg]
        have hT1 : TInv N { s with clsTables := tablesSet s.clsTables c name m } := by
          intro t' ht' e he
          obtain ⟨t, htm, hsub⟩ := tablesSet_entries ht'
          rcases hsub e he with hold | hnew
          · exact hT t htm e hold
          · right
            rw [hnew]
            exact hreg
        exact ih { s with clsTables := tablesSet s.clsTables c name m } hInv hT1
          (fun e he => hl e (List.mem_cons_of_mem _ he))

/-- `_wrap_class` preserves the activation invariants. -/
theorem wrap_class_spec (P : Provider) (N : Nat) (s : EState) (c : Nat)
    (hInv : Inv N s) (hT : TInv N s) :
    Inv N (wrap_class P s c) ∧ Grows s (wrap_class P s c) ∧
    TInv N (wrap_class P s c) := by
  refine wrap_class_go_spec P N c (clsGet s.clsTables c) s hInv hT ?_
  intro e he
  obtain ⟨t, htm, hem⟩ := clsGet_mem he
  exact hT t htm e hem

/-- Wrapping a dispatcher's overloads: invariants are preserved, tables
untouched, and every new overload is registered back to its original. -/
theorem map_state_wrap_spec (P : Provider) (N : Nat) (impls : List Nat)
    (s : EState) (hInv : Inv N s) (himpls : ∀ f ∈ impls, f < N) :
    Inv N (map_state (fun s' f => wrap_fn P s' f none) s impls).1 ∧
    Grows s (map_state (fun s' f => wrap_fn P s' f none) s impls).1 ∧
    (map_state (fun s' f => wrap_fn P s' f none) s impls).1.clsTables = s.clsTables ∧
    List.Forall₂ (fun w f =>
      nlookup (map_state (fun s' f => wrap_fn P s' f none) s impls).1.original_map w
        = some f)
      (map_state (fun s' f => wrap_fn P s' f none) s impls).2 impls := by
  induction impls generalizing s with
  | nil => exact ⟨hInv, grows_refl s, rfl, List.Forall₂.nil⟩
  | cons f rest ihr =>
    simp only [map_state]
    obtain ⟨hI1, hG1, hw1, hTab1⟩ :=
      wrap_fn_spec P N s f none hInv (himpls f (List.mem_cons_self _ _))
    obtain ⟨hI2, hG2, hTab2, hF2⟩ := ihr (wrap_fn P s f none).1 hI1
      (fun f' hf' => himpls f' (List.mem_cons_of_mem _ hf'))
    exact ⟨hI2, grows_trans hG1 hG2, hTab2.trans hTab1,
      List.Forall₂.cons (hG2 _ _ hw1) hF2⟩

/-- Bumping the fresh-id counter preserves the invariant. -/
theorem inv_bump {N : Nat} {s : EState} (h : Inv N s) :
    Inv N { s with nextId := s.nextId + 1 } :=
  ⟨Nat.le_succ_of_le h.1, h.2.1, h.2.2.1,
   fun k hk => h.2.2.2 k (Nat.le_of_succ_le hk)⟩

/-- `__enter__` on a plain function binding always yields the `_wrap_fn`
result (the source's identity test only skips an identical rebinding). -/
theorem enter_value_func (P : Provider) (s : EState) (f : Nat) :
    enter_value P s (SVal.func f)
      = ((wrap_fn P s f none).1, SVal.func (wrap_fn P s f none).2) := by
  by_cases hpf : (wrap_fn P s f none).2 = f
  · show (if (wrap_fn P s f none).2 = f then ((wrap_fn P s f none).1, SVal.func f)
      else ((wrap_fn P s f none).1, SVal.func (wrap_fn P s f none).2)) = _
    rw [if_pos hpf, hpf]
  · show (if (wrap_fn P s f none).2 = f then ((wrap_fn P s f none).1, SVal.func f)
      else ((wrap_fn P s f none).1, SVal.func (wrap_fn P s f none).2)) = _
    rw [if_neg hpf]

/-- One `__enter__` binding step preserves the activation invariants and
installs a value that unwinds to the original. -/
theorem enter_value_spec (P : Provider) (N : Nat) (s : EState) (v : SVal)
    (hInv : Inv N s) (hT : TInv N s) (hv : valBound N v) :
    Inv N (enter_value P s v).1 ∧ Grows s (enter_value P s v).1 ∧
    TInv N (enter_value P s v).1 ∧
    UnwrapsTo (enter_value P s v).1 (enter_value P s v).2 v := by
  cases v with
  | func f =>
    obtain ⟨hI1, hG1, hw1, hTab1⟩ := wrap_fn_spec P N s f none hInv hv
    rw [enter_value_func]
    exact ⟨hI1, hG1, tInv_mono hG1 hTab1 hT, hw1⟩
  | disp d impls =>
    obtain ⟨hI1, hG1, hTab1, hF1⟩ := map_state_wrap_spec P N impls s hInv hv.2
    show Inv N ({ (map_state (fun s' f => wrap_fn P s' f none) s impls).1 with
        nextId := (map_state (fun s' f => wrap_fn P s' f none) s impls).1.nextId + 1 }) ∧ _
    refine ⟨inv_bump hI1, hG1, ?_, hF1⟩
    exact tInv_mono hG1 hTab1 hT
  | cls c =>
    by_cases hca : P.classHasAny c
    · have he : enter_value P s (SVal.cls c) = (wrap_class P s c, SVal.cls c) := by
        show (if P.classHasAny c = true then (wrap_class P s c, SVal.cls c)
          else (s, SVal.cls c)) = _
        rw [if_pos hca]
      rw [he]
      obtain ⟨hI1, hG1, hT1⟩ := wrap_class_spec P N s c hInv hT
      exact ⟨hI1, hG1, hT1, rfl⟩
    · have he : enter_value P s (SVal.cls c) = (s, SVal.cls c) := by
        show (if P.classHasAny c = true then (wrap_class P s c, SVal.cls c)
          else (s, SVal.cls c)) = _
        rw [if_neg hca]
      rw [he]
      exact ⟨hInv, grows_refl s, hT, rfl⟩
  | other i => exact ⟨hInv, grows_refl s, hT, rfl⟩

/-- `__enter__` over one environment: invariants preserved, keys kept,
every installed value unwinds to its original in the final state. -/
theorem enter_env_spec (P : Provider) (N : Nat) (env : List (String × SVal))
    (s : EState) (hInv : Inv N s) (hT : TInv N s)
    (hb : ∀ e ∈ env, valBound N e.2) :
    Inv N (enter_env P s env).1 ∧ Grows s (enter_env P s env).1 ∧
    TInv N (enter_env P s env).1 ∧
    List.Forall₂ (fun e e' => e'.1 = e.1 ∧ UnwrapsTo (enter_env P s env).1 e'.2 e.2)
      env (enter_env P s env).2 := by
  induction env generalizing s with
  | nil => exact ⟨hInv, grows_refl s, hT, List.Forall₂.nil⟩
  | cons e rest ih =>
    obtain ⟨k, v⟩ := e
    simp only [enter_env]
    obtain ⟨hI1, hG1, hT1, hU1⟩ :=
      enter_value_spec P N s v hInv hT (hb (k, v) (List.mem_cons_self _ _))
    obtain ⟨hI2, hG2, hT2, hF2⟩ := ih (enter_value P s v).1 hI1 hT1
      (fun e he => hb e (List.mem_cons_of_mem _ he))
    exact ⟨hI2, grows_trans hG1 hG2, hT2,
      List.Forall₂.cons ⟨rfl, unwrapsTo_mono hG2 hU1⟩ hF2⟩

/-- `__enter__` over all environments. -/
theorem enter_scope_spec (P : Provider) (N : Nat)
    (envs : List (List (String × SVal))) (s : EState)
    (hInv : Inv N s) (hT : TInv N s)
    (hb : ∀ env ∈ envs, ∀ e ∈ env, valBound N e.2) :
    Inv N (enter_scope P s envs).1 ∧ Grows s (enter_scope P s envs).1 ∧
    TInv N (enter_scope P s envs).1 ∧
    List.Forall₂ (fun env env' =>
      List.Forall₂ (fun e e' => e'.1 = e.1 ∧
        UnwrapsTo (enter_scope P s envs).1 e'.2 e.2) env env')
      envs (enter_scope P s envs).2 := by
  induction envs generalizing s with
  | nil => exact ⟨hInv, grows_refl s, hT, List.Forall₂.nil⟩
  | cons env rest ih =>
    simp only [enter_scope]
    obtain ⟨hI1, hG1, hT1, hF1⟩ := enter_env_spec P N env s hInv hT
      (hb env (List.mem_cons_self _ _))
    obtain ⟨hI2, hG2, hT2, hF2⟩ := ih (enter_env P s env).1 hI1 hT1
      (fun env' henv' => hb env' (List.mem_cons_of_mem _ henv'))
    refine ⟨hI2, grows_trans hG1 hG2, hT2, List.Forall₂.cons ?_ hF2⟩
    exact hF1.imp (fun a b hab => ⟨hab.1, unwrapsTo_mono hG2 hab.2⟩)

/-- Unwinding the registered overloads restores a dispatcher's original
implementation list. -/
theorem forall2_lookup_map {s : EState} {impls' impls : List Nat}
    (h : List.Forall₂ (fun w f => nlookup s.original_map w = some f) impls' impls) :
    impls'.map (fun w => (nlookup s.original_map w).getD w) = impls := by
  induction h with
  | nil => rfl
  | cons hwf _ ih => simp [hwf, ih]

/-- `_unwrap` on an installed value yields the restored value: identical
for everything but dispatchers, which come back over the original
implementations. -/
theorem unwrap_value_spec (s : EState) (v' v : SVal) (hU : UnwrapsTo s v' v) :
    restoredVal v (unwrap_value s v').2 := by
  cases v' with
  | func w =>
    cases v with
    | func f =>
      have hU' : nlookup s.original_map w = some f := hU
      simp only [unwrap_value, hU']
      rfl
    | disp d impls => exact hU.elim
    | cls c => exact hU.elim
    | other i => exact hU.elim
  | disp d' impls' =>
    cases v with
    | func f => exact hU.elim
    | disp d impls =>
      have hF : List.Forall₂ (fun w f => nlookup s.original_map w = some f)
          impls' impls := hU
      have hms := map_state_pure (fun s' f => (s', (nlookup s'.original_map f).getD f))
        (fun _ _ => rfl) s impls'
      show restoredVal (SVal.disp d impls)
        (transform_singledispatch s impls'
          (fun s' f => (s', (nlookup s'.original_map f).getD f))).2
      unfold transform_singledispatch
      rw [hms]
      exact forall2_lookup_map hF
    | cls c => exact hU.elim
    | other i => exact hU.elim
  | cls c' =>
    cases v with
    | func f => exact hU.elim
    | disp d impls => exact hU.elim
    | cls c =>
      have hc : c' = c := hU
      show restoredVal (SVal.cls c) (SVal.cls c')
      rw [hc]
      rfl
    | other i => exact hU.elim
  | other i' =>
    cases v with
    | func f => exact hU.elim
    | disp d impls => exact hU.elim
    | cls c => exact hU.elim
    | other i =>
      have hc : i' = i := hU
      show restoredVal (SVal.other i) (SVal.other i')
      rw [hc]
      rfl

/-- `__exit__` over one environment restores every binding (same key;
same value reference, except dispatchers which come back over the
original implementations). -/
theorem exit_env_spec (env0 : List (String × SVal)) :
    ∀ (env' : List (String × SVal)) (s : EState),
    List.Forall₂ (fun e e' => e'.1 = e.1 ∧ UnwrapsTo s e'.2 e.2) env0 env' →
    List.Forall₂ (fun e e'' => e''.1 = e.1 ∧ restoredVal e.2 e''.2)
      env0 (exit_env s env').2 := by
  induction env0 with
  | nil =>
    intro env' s hU
    cases hU
    exact List.Forall₂.nil
  | cons e0 rest0 ih =>
    intro env' s hU
    cases hU with
    | cons h ht =>
      rename_i e' rest'
      simp only [exit_env]
      refine List.Forall₂.cons ⟨h.1, unwrap_value_spec s e'.2 e0.2 h.2⟩ ?_
      refine ih rest' (unwrap_value s e'.2).1 ?_
      exact ht.imp (fun a b hab =>
        ⟨hab.1, unwrapsTo_eqmap (unwrap_value_maps s e'.2).1 hab.2⟩)

/-- `__exit__` over all environments restores every binding. -/
theorem exit_scope_spec (envs0 : List (List (String × SVal))) :
    ∀ (envs' : List (List (String × SVal))) (s : EState),
    List.Forall₂ (fun env env' =>
      List.Forall₂ (fun e e' => e'.1 = e.1 ∧ UnwrapsTo s e'.2 e.2) env env')
      envs0 envs' →
    List.Forall₂ (fun env env'' =>
      List.Forall₂ (fun e e'' => e''.1 = e.1 ∧ restoredVal e.2 e''.2) env env'')
      envs0 (exit_scope s envs').2 := by
  induction envs0 with
  | nil =>
    intro envs' s hU
    cases hU
    exact List.Forall₂.nil
  | cons env0 rest0 ih =>
    intro envs' s hU
    cases hU with
    | cons h ht =>
      rename_i env' rest'
      simp only [exit_scope]
      refine List.Forall₂.cons (exit_env_spec env0 env' s h) ?_
      refine ih rest' (exit_env s env').1 ?_
      refine ht.imp (fun a b hab => ?_)
      exact hab.imp (fun x y hxy =>
        ⟨hxy.1, unwrapsTo_eqmap (exit_env_maps env' s).1 hxy.2⟩)

/-! ### Heap lemmas -/

theorem getObj_append_left (h t : Heap) (r : Ref) (hr : r < h.length) :
    getObj (h ++ t) r = getObj h r :=
  List.getD_append h t Obj.vnone r hr

theorem getObj_concat_length (h : Heap) (o : Obj) :
    getObj (h ++ [o]) h.length = o := by
  simp [getObj, List.getD_eq_getElem?_getD, List.getElem?_concat_length]

theorem writeBack_length (ws : List (Ref × Obj)) (h : Heap) :
    (writeBack h ws).length = h.length := by
  induction ws generalizing h with
  | nil => rfl
  | cons p rest ih =>
    obtain ⟨r, o⟩ := p
    simp only [writeBack]
    rw [ih, List.length_set]

theorem writeBack_append (ws : List (Ref × Obj)) (h t : Heap)
    (hw : ∀ p ∈ ws, p.1 < h.length) :
    writeBack (h ++ t) ws = writeBack h ws ++ t := by
  induction ws generalizing h with
  | nil => rfl
  | cons p rest ih =>
    obtain ⟨r, o⟩ := p
    simp only [writeBack]
    rw [List.set_append_left r o (hw (r, o) (by simp))]
    exact ih (h.set r o)
      (fun q hq => by rw [List.length_set]; exact hw q (List.mem_cons_of_mem _ hq))

theorem getObj_writeBack_ne (ws : List (Ref × Obj)) (h : Heap) (r : Ref)
    (hr : ∀ p ∈ ws, p.1 ≠ r) :
    getObj (writeBack h ws) r = getObj h r := by
  induction ws generalizing h with
  | nil => rfl
  | cons p rest ih =>
    obtain ⟨r', o⟩ := p
    simp only [writeBack]
    rw [ih (h.set r' o) (fun q hq => hr q (List.mem_cons_of_mem _ hq))]
    simp [getObj, List.getD_eq_getElem?_getD,
      List.getElem?_set_ne (hr (r', o) (by simp) : r' ≠ r)]

/-- A successful dict lookup locates an actual entry. -/
theorem dlookup_mem (d : List (String × Ref)) (k : String) (v : Ref)
    (hd : dlookup d k = some v) : (k, v) ∈ d := by
  induction d with
  | nil => simp [dlookup] at hd
  | cons p rest ih =>
    simp only [dlookup] at hd
    rcases hrest : dlookup rest k with _ | w
    · rw [hrest] at hd
      by_cases hk : p.1 = k
      · rw [if_pos hk] at hd
        injection hd with hv
        obtain ⟨p1, p2⟩ := p
        simp only at hk hv
        subst hk
        subst hv
        exact List.mem_cons_self _ _
      · rw [if_neg hk] at hd
        cases hd
    · rw [hrest] at hd
      injection hd with hv
      subst hv
      exact List.mem_cons_of_mem _ (ih hrest)

/-- A dict lookup fails exactly when the key is absent. -/
theorem dlookup_eq_none (d : List (String × Ref)) (k : String) :
    dlookup d k = none ↔ k ∉ d.map Prod.fst := by
  induction d with
  | nil => simp [dlookup]
  | cons p rest ih =>
    simp only [dlookup, List.map_cons, List.mem_cons]
    rcases hrest : dlookup rest k with _ | w
    · have hnot : k ∉ rest.map Prod.fst := (ih).mp hrest
      by_cases hk : p.1 = k
      · simp [if_pos hk, hk]
      · simp [if_neg hk, Ne.symm hk, hnot]
    · have : k ∈ rest.map Prod.fst := by
        have := dlookup_mem rest k w hrest
        exact List.mem_map.mpr ⟨(k, w), this, rfl⟩
      simp [this]

/-- The snapshot dict binds the same names as the bound arguments. -/
theorem buildOld_names (bound : List (String × Ref)) (h : Heap) :
    (buildOld h bound).2.map Prod.fst = bound.map Prod.fst := by
  induction bound generalizing h with
  | nil => rfl
  | cons p rest ih =>
    obtain ⟨n, r⟩ := p
    have : (buildOld h ((n, r) :: rest)).2
        = (n, h.length) :: (buildOld (h ++ [getObj h r]) rest).2 := rfl
    rw [this, List.map_cons, List.map_cons, ih]

/-- The snapshot loop only appends shallow copies of the bound arguments:
the extended heap is the original followed by the copied contents in
parameter order (for in-range argument references). -/
theorem buildOld_heap (bound : List (String × Ref)) (h : Heap)
    (hvalid : ∀ p ∈ bound, p.2 < h.length) :
    (buildOld h bound).1 = h ++ bound.map (fun p => getObj h p.2) := by
  induction bound generalizing h with
  | nil => simp [buildOld]
  | cons p rest ih =>
    obtain ⟨n, r⟩ := p
    have hvrest : ∀ q ∈ rest, q.2 < (h ++ [getObj h r]).length := fun q hq => by
      rw [List.length_append]
      exact Nat.lt_of_lt_of_le (hvalid q (List.mem_cons_of_mem _ hq)) (Nat.le_add_right _ _)
    have hstep : (buildOld h ((n, r) :: rest)).1 = (buildOld (h ++ [getObj h r]) rest).1 := rfl
    have hmap : rest.map (fun p => getObj (h ++ [getObj h r]) p.2)
        = rest.map (fun p => getObj h p.2) :=
      List.map_congr_left (fun q hq =>
        getObj_append_left h [getObj h r] q.2 (hvalid q (List.mem_cons_of_mem _ hq)))
    rw [hstep, ih (h ++ [getObj h r]) hvrest, hmap, List.map_cons, List.append_assoc,
      List.singleton_append]

/-- Every name bound by the call has a snapshot entry: a fresh reference,
outside the original heap, whose contents in the snapshot-extended heap
are the argument's pre-call contents. -/
theorem buildOld_lookup (bound : List (String × Ref)) (h : Heap)
    (hvalid : ∀ p ∈ bound, p.2 < h.length) (nm : String) (rr : Ref)
    (hlk : dlookup bound nm = some rr) :
    ∃ r', dlookup (buildOld h bound).2 nm = some r' ∧ h.length ≤ r' ∧
      r' < (buildOld h bound).1.length ∧
      getObj (buildOld h bound).1 r' = getObj h rr := by
  induction bound generalizing h with
  | nil => simp [dlookup] at hlk
  | cons p rest ih =>
    obtain ⟨n, r⟩ := p
    have hvrest : ∀ q ∈ rest, q.2 < (h ++ [getObj h r]).length := fun q hq => by
      rw [List.length_append]
      exact Nat.lt_of_lt_of_le (hvalid q (List.mem_cons_of_mem _ hq)) (Nat.le_add_right _ _)
    have hfst : (buildOld h ((n, r) :: rest)).1 = (buildOld (h ++ [getObj h r]) rest).1 := rfl
    have hsnd : (buildOld h ((n, r) :: rest)).2
        = (n, h.length) :: (buildOld (h ++ [getObj h r]) rest).2 := rfl
    simp only [dlookup] at hlk
    rcases hdeep : dlookup rest nm with _ | rr'
    · rw [hdeep] at hlk
      by_cases hk : n = nm
      · rw [if_pos hk] at hlk
        injection hlk with hv
        subst hv
        refine ⟨h.length, ?_, Nat.le_refl _, ?_, ?_⟩
        · rw [hsnd]
          simp only [dlookup]
          have hnone : dlookup (buildOld (h ++ [getObj h r]) rest).2 nm = none := by
            rw [dlookup_eq_none, buildOld_names]
            exact (dlookup_eq_none rest nm).mp hdeep
          rw [hnone, if_pos hk]
        · rw [hfst, buildOld_heap rest (h ++ [getObj h r]) hvrest, List.length_append,
            List.length_append, List.length_singleton]
          exact Nat.lt_add_right _ (Nat.lt_succ_self _)
        · rw [hfst, buildOld_heap rest (h ++ [getObj h r]) hvrest,
            getObj_append_left _ _ _ (by simp), getObj_concat_length]
      · rw [if_neg hk] at hlk
        cases hlk
    · rw [hdeep] at hlk
      injection hlk with hv
      subst hv
      have hrmem : (nm, rr') ∈ rest := dlookup_mem rest nm rr' hdeep
      obtain ⟨r', hl', hge', hlt', hobj'⟩ := ih (h ++ [getObj h r]) hvrest hdeep
      refine ⟨r', ?_, ?_, ?_, ?_⟩
      · rw [hsnd]
        simp only [dlookup, hl']
      · exact Nat.le_trans (by simp) hge'
      · rw [hfst]; exact hlt'
      · rw [hfst, hobj']
        exact getObj_append_left h [getObj h r] rr'
          (hvalid (nm, rr') (List.mem_cons_of_mem _ hrmem))

/-- Merged-dict lookup: the right-hand dict wins, as in `{**d1, **d2}`. -/
theorem dlookup_append (xs ys : List (String × Ref)) (k : String) :
    dlookup (xs ++ ys) k =
      match dlookup ys k with
      | some v => some v
      | none => dlookup xs k := by
  induction xs with
  | nil => cases hys : dlookup ys k <;> simp [dlookup, hys]
  | cons p rest ih =>
    rw [List.cons_append]
    show (match dlookup (rest ++ ys) k with
      | some v => some v
      | none => if p.1 = k then some p.2 else none) = _
    rw [ih]
    cases hys : dlookup ys k
    · rfl
    · rfl

/-- A two-entry dict with mismatched keys yields no binding. -/
theorem dlookup_pair_ne (x y : String × Ref) (k : String)
    (hx : x.1 ≠ k) (hy : y.1 ≠ k) : dlookup [x, y] k = none := by
  simp [dlookup, hx, hy]

/-! ### Supporting lemmas about direct invocation -/

/-- Normal form of a direct call once binding succeeds: run the body on
the bound contents, write back its in-place mutations, allocate the
returned object at the end of the heap. -/
theorem callFn_eq (fn : Fn) (a : List Ref) (kw : List (String × Ref)) (h : Heap)
    (bound : List (String × Ref)) (hbind : fn.sig.bind a kw = Except.ok bound) :
    callFn fn a kw h =
      match fn.body ((bound.map Prod.snd).map (getObj h)) with
      | Except.error e => Except.error e
      | Except.ok (newVals, retObj) =>
        Except.ok (writeBack h ((bound.map Prod.snd).zip newVals) ++ [retObj],
          (writeBack h ((bound.map Prod.snd).zip newVals)).length) := by
  unfold callFn
  rw [hbind]
  rfl

/-! ### Supporting lemmas about the wrapper stages -/

/-- A prefix of preconditions that all evaluate true is skipped over. -/
theorem checkPres_append_true (fn : Fn) (bound : List (String × Ref)) (h : Heap)
    (p₁ rest : List Cond)
    (htrue : ∀ c ∈ p₁, c.expr (fn.globals ++ bound) h = true) :
    checkPres fn bound h (p₁ ++ rest) = checkPres fn bound h rest := by
  induction p₁ with
  | nil => rfl
  | cons c p ih =>
    have hc : c.expr (fn.globals ++ bound) h = true := htrue c (by simp)
    simp only [List.cons_append, checkPres, hc, if_true]
    exact ih (fun c' hc' => htrue c' (List.mem_cons_of_mem _ hc'))

/-- If every precondition evaluates true, the precondition loop succeeds. -/
theorem checkPres_all_true (fn : Fn) (bound : List (String × Ref)) (h : Heap)
    (pres : List Cond)
    (htrue : ∀ c ∈ pres, c.expr (fn.globals ++ bound) h = true) :
    checkPres fn bound h pres = Except.ok () := by
  have := checkPres_append_true fn bound h pres [] htrue
  simpa using this

/-- If every postcondition evaluates true, the postcondition loop
succeeds. -/
theorem checkPosts_all_true (args : List (String × Ref)) (h : Heap)
    (posts : List Cond)
    (htrue : ∀ c ∈ posts, c.expr args h = true) :
    checkPosts args h posts = Except.ok () := by
  induction posts with
  | nil => rfl
  | cons c p ih =>
    have hc : c.expr args h = true := htrue c (by simp)
    simp only [checkPosts, hc, if_true]
    exact ih (fun c' hc' => htrue c' (List.mem_cons_of_mem _ hc'))

/-- Unfolding of a non-reentrant wrapped call whose arguments bind and
whose declared mutable names are all bound: the call proceeds to the
precondition, delegation and postcondition stages. -/
theorem wrapperCall_stages (fn : Fn) (conditions : Conditions)
    (fns_enforcing : List Nat) (a : List Ref) (kw : List (String × Ref)) (h : Heap)
    (bound : List (String × Ref))
    (hre : fns_enforcing.contains fn.id = false)
    (hbind : conditions.sig.bind a kw = Except.ok bound)
    (hmut : conditions.mutable_args.filter (fun m => (dlookup bound m).isNone) = []) :
    wrapperCall fn conditions fns_enforcing a kw h =
      (match checkPres fn bound (buildOld h bound).1 conditions.pre with
       | Except.error e => Except.error e
       | Except.ok _ =>
         match callFn fn a kw (buildOld h bound).1 with
         | Except.error e => Except.error e
         | Except.ok (h2, ret) =>
           match
             checkPosts
               (fn.globals ++
                 (bound ++
                   [("__return__", ret),
                    ("__old__", (heapAlloc h2 (Obj.vdict (buildOld h bound).2)).2)]))
               (heapAlloc h2 (Obj.vdict (buildOld h bound).2)).1 conditions.post with
           | Except.error e => Except.error e
           | Except.ok _ =>
             Except.ok ((heapAlloc h2 (Obj.vdict (buildOld h bound).2)).1, ret)) := by
  have hA : wrapperCall fn conditions fns_enforcing a kw h =
      (if !((conditions.mutable_args.filter (fun m => (dlookup bound m).isNone)).isEmpty) then
        Except.error (PyErr.postconditionFailed
          (unrecognizedMsg (conditions.mutable_args.filter (fun m => (dlookup bound m).isNone))))
      else
        match checkPres fn bound (buildOld h bound).1 conditions.pre with
        | Except.error e => Except.error e
        | Except.ok _ =>
          match callFn fn a kw (buildOld h bound).1 with
          | Except.error e => Except.error e
          | Except.ok (h2, ret) =>
            match
              checkPosts
                (fn.globals ++
                  (bound ++
                    [("__return__", ret),
                     ("__old__", (heapAlloc h2 (Obj.vdict (buildOld h bound).2)).2)]))
                (heapAlloc h2 (Obj.vdict (buildOld h bound).2)).1 conditions.post with
            | Except.error e => Except.error e
            | Except.ok _ =>
              Except.ok ((heapAlloc h2 (Obj.vdict (buildOld h bound).2)).1, ret)) := by
    unfold wrapperCall
    rw [hre, hbind]
    rfl
  rw [hA, hmut]
  rfl

/-! ### Theorems -/

/-- C4: outside the reentrant-bypass case, preconditions are evaluated in
declared order; at the first one evaluating false the call raises
`PreconditionFailed` naming that condition's source file and line.  The
underlying callable is never invoked: `fn.body` is universally
quantified and absent from every hypothesis, so the result is the same
for every implementation body. -/
theorem c4_first_false_precondition_raises (fn : Fn) (conditions : Conditions)
    (fns_enforcing : List Nat) (a : List Ref) (kw : List (String × Ref)) (h : Heap)
    (bound : List (String × Ref)) (p₁ : List Cond) (c : Cond) (p₂ : List Cond)
    (hre : fns_enforcing.contains fn.id = false)
    (hbind : conditions.sig.bind a kw = Except.ok bound)
    (hmut : conditions.mutable_args.filter (fun m => (dlookup bound m).isNone) = [])
    (hpre : conditions.pre = p₁ ++ c :: p₂)
    (hfirst : ∀ c' ∈ p₁, c'.expr (fn.globals ++ bound) (buildOld h bound).1 = true)
    (hfalse : c.expr (fn.globals ++ bound) (buildOld h bound).1 = false) :
    wrapperCall fn conditions fns_enforcing a kw h =
      Except.error (PyErr.preconditionFailed
        ("Precondition failed at " ++ c.filename ++ ":" ++ toString c.line)) := by
  rw [wrapperCall_stages fn conditions fns_enforcing a kw h bound hre hbind hmut, hpre,
    checkPres_append_true fn bound (buildOld h bound).1 p₁ (c :: p₂) hfirst]
  simp only [checkPres, hfalse]
  rfl

/-- Witness for C4: the second of two preconditions fails on a concrete
call; the reported location is that of the second condition. -/
theorem c4_first_false_precondition_raises_witness :
    wrapperCall
      { id := 0, sig := { params := [{ name := "x", default := none }] },
        globals := [], body := fun vals => Except.ok (vals, Obj.vint 99) }
      { sig := { params := [{ name := "x", default := none }] },
        pre := [{ expr := fun _ _ => true, filename := "a.py", line := 1 },
                { expr := fun _ _ => false, filename := "b.py", line := 2 }],
        post := [], mutable_args := ["x"] }
      [] [0] [] [Obj.vint 4]
    = Except.error (PyErr.preconditionFailed
        ("Precondition failed at " ++ "b.py" ++ ":" ++ toString 2)) := by
  exact c4_first_false_precondition_raises _ _ _ _ _ _
    [("x", 0)]
    [{ expr := fun _ _ => true, filename := "a.py", line := 1 }]
    { expr := fun _ _ => false, filename := "b.py", line := 2 }
    []
    rfl rfl rfl rfl
    (by intro c' hc'; simp at hc'; subst hc'; rfl)
    rfl

/-- C5: if the underlying callable raises, that exception propagates from
the wrapper unmodified.  `conditions.post` is absent from every
hypothesis, so the outcome is independent of the postconditions — none of
them is evaluated for an exceptional exit. -/
theorem c5_underlying_exception_propagates (fn : Fn) (conditions : Conditions)
    (fns_enforcing : List Nat) (a : List Ref) (kw : List (String × Ref)) (h : Heap)
    (bound : List (String × Ref)) (e : PyErr)
    (hre : fns_enforcing.contains fn.id = false)
    (hbind : conditions.sig.bind a kw = Except.ok bound)
    (hmut : conditions.mutable_args.filter (fun m => (dlookup bound m).isNone) = [])
    (hpres : checkPres fn bound (buildOld h bound).1 conditions.pre = Except.ok ())
    (hraise : callFn fn a kw (buildOld h bound).1 = Except.error e) :
    wrapperCall fn conditions fns_enforcing a kw h = Except.error e := by
  rw [wrapperCall_stages fn conditions fns_enforcing a kw h bound hre hbind hmut,
    hpres, hraise]

/-- Witness for C5: a body raising a user exception propagates it past a
postcondition that would evaluate false. -/
theorem c5_underlying_exception_propagates_witness :
    wrapperCall
      { id := 0, sig := { params := [{ name := "x", default := none }] },
        globals := [], body := fun _ => Except.error (PyErr.userError 3) }
      { sig := { params := [{ name := "x", default := none }] },
        pre := [{ expr := fun _ _ => true, filename := "a.py", line := 1 }],
        post := [{ expr := fun _ _ => false, filename := "c.py", line := 9 }],
        mutable_args := [] }
      [] [0] [] [Obj.vint 4]
    = Except.error (PyErr.userError 3) := by
  exact c5_underlying_exception_propagates _ _ _ _ _ _ [("x", 0)] _
    rfl rfl rfl rfl rfl

/-- C8: outside the reentrant-bypass case, a name declared mutable that is
not among the bound parameter names raises `PostconditionFailed` listing
the unrecognized names.  `fn.body` is universally quantified and absent
from every hypothesis, so the underlying implementation is never invoked
and the result is the same for every implementation body. -/
theorem c8_unbound_mutable_arg_raises (fn : Fn) (conditions : Conditions)
    (fns_enforcing : List Nat) (a : List Ref) (kw : List (String × Ref)) (h : Heap)
    (bound : List (String × Ref)) (m : String)
    (hre : fns_enforcing.contains fn.id = false)
    (hbind : conditions.sig.bind a kw = Except.ok bound)
    (hm : m ∈ conditions.mutable_args)
    (hnb : dlookup bound m = none) :
    wrapperCall fn conditions fns_enforcing a kw h =
      Except.error (PyErr.postconditionFailed
        (unrecognizedMsg
          (conditions.mutable_args.filter (fun m' => (dlookup bound m').isNone)))) := by
  have hA : wrapperCall fn conditions fns_enforcing a kw h =
      (if !((conditions.mutable_args.filter (fun m' => (dlookup bound m').isNone)).isEmpty) then
        Except.error (PyErr.postconditionFailed
          (unrecognizedMsg (conditions.mutable_args.filter (fun m' => (dlookup bound m').isNone))))
      else
        match checkPres fn bound (buildOld h bound).1 conditions.pre with
        | Except.error e => Except.error e
        | Except.ok _ =>
          match callFn fn a kw (buildOld h bound).1 with
          | Except.error e => Except.error e
          | Except.ok (h2, ret) =>
            match
              checkPosts
                (fn.globals ++
                  (bound ++
                    [("__return__", ret),
                     ("__old__", (heapAlloc h2 (Obj.vdict (buildOld h bound).2)).2)]))
                (heapAlloc h2 (Obj.vdict (buildOld h bound).2)).1 conditions.post with
            | Except.error e => Except.error e
            | Except.ok _ =>
              Except.ok ((heapAlloc h2 (Obj.vdict (buildOld h bound).2)).1, ret)) := by
    unfold wrapperCall
    rw [hre, hbind]
    rfl
  have hmem : m ∈ conditions.mutable_args.filter (fun m' => (dlookup bound m').isNone) :=
    List.mem_filter.mpr ⟨hm, by simp [hnb]⟩
  have hne : (conditions.mutable_args.filter (fun m' => (dlookup bound m').isNone)).isEmpty = false := by
    rcases hemp : (conditions.mutable_args.filter (fun m' => (dlookup bound m').isNone)) with _ | ⟨x, xs⟩
    · rw [hemp] at hmem; simp at hmem
    · rfl
  rw [hA, hne]
  rfl

/-- Witness for C8: declared mutable name "y" is not a parameter of the
signature, so the call fails before the (diverging-result) body could
matter. -/
theorem c8_unbound_mutable_arg_raises_witness :
    wrapperCall
      { id := 0, sig := { params := [{ name := "x", default := none }] },
        globals := [], body := fun vals => Except.ok (vals, Obj.vint 99) }
      { sig := { params := [{ name := "x", default := none }] },
        pre := [], post := [], mutable_args := ["y"] }
      [] [0] [] [Obj.vint 4]
    = Except.error (PyErr.postconditionFailed
        (unrecognizedMsg (["y"].filter (fun m' => (dlookup [("x", 0)] m').isNone)))) := by
  exact c8_unbound_mutable_arg_raises _ _ _ _ _ _ [("x", 0)] "y"
    rfl rfl (by simp) rfl

/-- C6: if the underlying callable is currently a member of the
reentrancy guard, the wrapper invokes it directly with the given
arguments and returns its result unmodified — the result coincides with a
direct `fn(*a, **kw)` call for arbitrary `conditions`, so no argument
binding, snapshotting, or condition evaluation influences the outcome. -/
theorem c6_reentrant_bypass_is_direct_call (fn : Fn) (conditions : Conditions)
    (fns_enforcing : List Nat) (a : List Ref) (kw : List (String × Ref)) (h : Heap)
    (hmem : fns_enforcing.contains fn.id = true) :
    wrapperCall fn conditions fns_enforcing a kw h = callFn fn a kw h := by
  unfold wrapperCall
  rw [hmem]
  rfl

/-- Witness for C6 at a concrete reentrant call. -/
theorem c6_reentrant_bypass_is_direct_call_witness :
    ([0].contains (0 : Nat) = true) ∧
    wrapperCall
      { id := 0, sig := { params := [{ name := "x", default := none }] },
        globals := [], body := fun vals => Except.ok (vals, Obj.vint 7) }
      { sig := { params := [] },
        pre := [{ expr := fun _ _ => false, filename := "f.py", line := 1 }],
        post := [], mutable_args := ["zz"] }
      [0] [0] [] [Obj.vint 1]
    = callFn
      { id := 0, sig := { params := [{ name := "x", default := none }] },
        globals := [], body := fun vals => Except.ok (vals, Obj.vint 7) }
      [0] [] [Obj.vint 1] := by
  refine ⟨rfl, ?_⟩
  exact c6_reentrant_bypass_is_direct_call _ _ _ _ _ _ rfl

/-- C10: `PreconditionFailed` and `PostconditionFailed` are subclasses of
`BaseException` but not of `Exception`, so a propagating contract failure
escapes every handler whose class is a subclass of `Exception`, while
handlers for `BaseException` or for the specific failure classes observe
it. -/
theorem c10_failures_bypass_exception_handlers :
    isSubclassOf PyClass.preconditionFailedClass PyClass.baseExceptionClass = true ∧
    isSubclassOf PyClass.postconditionFailedClass PyClass.baseExceptionClass = true ∧
    isSubclassOf PyClass.preconditionFailedClass PyClass.exceptionClass = false ∧
    isSubclassOf PyClass.postconditionFailedClass PyClass.exceptionClass = false ∧
    (∀ handler : PyClass, isSubclassOf handler PyClass.exceptionClass = true →
      ∀ msg : String,
        handlerCatches handler (PyErr.preconditionFailed msg) = false ∧
        handlerCatches handler (PyErr.postconditionFailed msg) = false) ∧
    (∀ msg : String,
      handlerCatches PyClass.baseExceptionClass (PyErr.preconditionFailed msg) = true ∧
      handlerCatches PyClass.preconditionFailedClass (PyErr.preconditionFailed msg) = true ∧
      handlerCatches PyClass.baseExceptionClass (PyErr.postconditionFailed msg) = true ∧
      handlerCatches PyClass.postconditionFailedClass (PyErr.postconditionFailed msg) = true) := by
  refine ⟨rfl, rfl, rfl, rfl, ?_, ?_⟩
  · intro handler hh msg
    cases handler <;> simp_all [handlerCatches, classOf, isSubclassOf, mro,
      ancestorsFuel, parentOf, List.contains]
  · intro msg
    exact ⟨rfl, rfl, rfl, rfl⟩

/-- Witness for C10: a handler catching `Exception` itself does not
observe a precondition failure. -/
theorem c10_failures_bypass_exception_handlers_witness :
    handlerCatches PyClass.exceptionClass (PyErr.preconditionFailed "m") = false :=
  (c10_failures_bypass_exception_handlers.2.2.2.2.1
    PyClass.exceptionClass rfl "m").1

/-- C1: for a call through the installed wrapper (with the default
identity interceptor) whose arguments bind against the call signature,
whose declared mutable-argument names are all bound, and for which every
precondition and every postcondition evaluates true, the wrapper returns
exactly the value returned by calling the original callable directly with
the same arguments (same returned-object contents). -/
theorem c1_wrapped_call_returns_direct_value (fn : Fn) (conditions : Conditions)
    (fns_enforcing : List Nat) (a : List Ref) (kw : List (String × Ref)) (h : Heap)
    (bound : List (String × Ref)) (h' : Heap) (r' : Ref)
    (hsig : conditions.sig = fn.sig)
    (hbind : fn.sig.bind a kw = Except.ok bound)
    (hvalid : ∀ p ∈ bound, p.2 < h.length)
    (hmut : conditions.mutable_args.filter (fun m => (dlookup bound m).isNone) = [])
    (hpre : ∀ c ∈ conditions.pre, c.expr (fn.globals ++ bound) (buildOld h bound).1 = true)
    (hpost : ∀ args hh, postEnvOf fn conditions a kw h = some (args, hh) →
      ∀ c ∈ conditions.post, c.expr args hh = true)
    (hdirect : callFn fn a kw h = Except.ok (h', r')) :
    ∃ h'' r'', wrapperCall fn conditions fns_enforcing a kw h = Except.ok (h'', r'') ∧
      getObj h'' r'' = getObj h' r' := by
  have hbind' : conditions.sig.bind a kw = Except.ok bound := by rw [hsig]; exact hbind
  rw [callFn_eq fn a kw h bound hbind] at hdirect
  rcases hbody : fn.body ((bound.map Prod.snd).map (getObj h)) with e | ⟨newVals, retObj⟩
  · rw [hbody] at hdirect; cases hdirect
  · rw [hbody] at hdirect
    injection hdirect with hd
    have hd1 : writeBack h ((bound.map Prod.snd).zip newVals) ++ [retObj] = h' :=
      congrArg Prod.fst hd
    have hd2 : (writeBack h ((bound.map Prod.snd).zip newVals)).length = r' :=
      congrArg Prod.snd hd
    subst hd1
    subst hd2
    cases hre : fns_enforcing.contains fn.id with
    | true =>
      refine ⟨writeBack h ((bound.map Prod.snd).zip newVals) ++ [retObj],
        (writeBack h ((bound.map Prod.snd).zip newVals)).length, ?_, rfl⟩
      unfold wrapperCall
      rw [hre, callFn_eq fn a kw h bound hbind, hbody]
      rfl
    | false =>
      rw [wrapperCall_stages fn conditions fns_enforcing a kw h bound hre hbind' hmut,
        checkPres_all_true fn bound (buildOld h bound).1 conditions.pre hpre]
      have hh1 : (buildOld h bound).1 = h ++ bound.map (fun p => getObj h p.2) :=
        buildOld_heap bound h hvalid
      have hvals : (bound.map Prod.snd).map (getObj (buildOld h bound).1)
          = (bound.map Prod.snd).map (getObj h) := by
        rw [hh1]
        refine List.map_congr_left ?_
        intro r hrmem
        obtain ⟨p, hp, rfl⟩ := List.mem_map.mp hrmem
        exact getObj_append_left _ _ _ (hvalid p hp)
      have hzip : ∀ q ∈ (bound.map Prod.snd).zip newVals, q.1 < h.length := by
        intro q hq
        obtain ⟨hq1, hq2⟩ := List.of_mem_zip hq
        obtain ⟨p, hp, hpe⟩ := List.mem_map.mp hq1
        rw [← hpe]
        exact hvalid p hp
      have hwb : writeBack (buildOld h bound).1 ((bound.map Prod.snd).zip newVals)
          = writeBack h ((bound.map Prod.snd).zip newVals)
            ++ bound.map (fun p => getObj h p.2) := by
        rw [hh1]
        exact writeBack_append _ h _ hzip
      have hcall1 : callFn fn a kw (buildOld h bound).1 =
          Except.ok ((writeBack h ((bound.map Prod.snd).zip newVals)
              ++ bound.map (fun p => getObj h p.2)) ++ [retObj],
            (writeBack h ((bound.map Prod.snd).zip newVals)
              ++ bound.map (fun p => getObj h p.2)).length) := by
        rw [callFn_eq fn a kw _ bound hbind, hvals]
        simp only [hbody, hwb]
      rw [hcall1]
      have hpe : postEnvOf fn conditions a kw h =
          some (fn.globals ++ (bound ++
              [("__return__", (writeBack h ((bound.map Prod.snd).zip newVals)
                  ++ bound.map (fun p => getObj h p.2)).length),
               ("__old__", (heapAlloc (writeBack h ((bound.map Prod.snd).zip newVals)
                  ++ bound.map (fun p => getObj h p.2) ++ [retObj])
                  (Obj.vdict (buildOld h bound).2)).2)]),
            (heapAlloc (writeBack h ((bound.map Prod.snd).zip newVals)
                ++ bound.map (fun p => getObj h p.2) ++ [retObj])
                (Obj.vdict (buildOld h bound).2)).1) := by
        unfold postEnvOf
        rw [hbind']
        simp only [hcall1]
      have hposts : checkPosts
          (fn.globals ++ (bound ++
            [("__return__", (writeBack h ((bound.map Prod.snd).zip newVals)
                ++ bound.map (fun p => getObj h p.2)).length),
             ("__old__", (heapAlloc (writeBack h ((bound.map Prod.snd).zip newVals)
                ++ bound.map (fun p => getObj h p.2) ++ [retObj])
                (Obj.vdict (buildOld h bound).2)).2)]))
          (heapAlloc (writeBack h ((bound.map Prod.snd).zip newVals)
              ++ bound.map (fun p => getObj h p.2) ++ [retObj])
              (Obj.vdict (buildOld h bound).2)).1
          conditions.post = Except.ok () :=
        checkPosts_all_true _ _ _ (hpost _ _ hpe)
      simp only [hposts]
      refine ⟨_, _, rfl, ?_⟩
      simp only [heapAlloc]
      rw [getObj_append_left
          (writeBack h ((bound.map Prod.snd).zip newVals)
            ++ bound.map (fun p => getObj h p.2) ++ [retObj])
          [Obj.vdict (buildOld h bound).2] _ (by simp),
        getObj_concat_length, getObj_concat_length]

/-- Witness for C1: a concrete wrapped call with one mutable list
argument and satisfied contracts returns the same value the direct call
returns. -/
theorem c1_wrapped_call_returns_direct_value_witness :
    ∃ h'' r'',
      wrapperCall
        { id := 0, sig := { params := [{ name := "x", default := none }] },
          globals := [], body := fun vals => Except.ok (vals, Obj.vint 7) }
        { sig := { params := [{ name := "x", default := none }] },
          pre := [{ expr := fun _ _ => true, filename := "a.py", line := 1 }],
          post := [{ expr := fun _ _ => true, filename := "c.py", line := 3 }],
          mutable_args := ["x"] }
        [] [0] [] [Obj.vlist [1, 2]]
      = Except.ok (h'', r'') ∧
      getObj h'' r'' = getObj [Obj.vlist [1, 2], Obj.vint 7] 1 := by
  exact c1_wrapped_call_returns_direct_value _ _ _ _ _ _
    [("x", 0)] [Obj.vlist [1, 2], Obj.vint 7] 1
    rfl rfl (by decide) rfl
    (by intro c hc; simp at hc; subst hc; rfl)
    (by intro args hh hpe c hc; simp at hc; subst hc; rfl)
    rfl

/-- C7: a wrapped call reaching postcondition evaluation evaluates each
postcondition against the environment built from the defining-scope
globals, the bound arguments, the dedicated `__return__` binding and the
dedicated `__old__` binding; `__old__` names a dict mapping every bound
parameter name (not only the declared-mutable ones) to a shallow copy
taken before the underlying callable ran, whose contents in the
postcondition heap equal the argument's pre-call contents regardless of
what the implementation body wrote to the argument in place. -/
theorem c7_postconditions_see_snapshot (fn : Fn) (conditions : Conditions)
    (fns_enforcing : List Nat) (a : List Ref) (kw : List (String × Ref)) (h : Heap)
    (bound : List (String × Ref)) (h2 : Heap) (ret : Ref)
    (hsig : conditions.sig = fn.sig)
    (hbind : fn.sig.bind a kw = Except.ok bound)
    (hvalid : ∀ p ∈ bound, p.2 < h.length)
    (hre : fns_enforcing.contains fn.id = false)
    (hmut : conditions.mutable_args.filter (fun m => (dlookup bound m).isNone) = [])
    (hpres : checkPres fn bound (buildOld h bound).1 conditions.pre = Except.ok ())
    (hcall : callFn fn a kw (buildOld h bound).1 = Except.ok (h2, ret)) :
    postEnvOf fn conditions a kw h =
      some (fn.globals ++ (bound ++
          [("__return__", ret),
           ("__old__", (heapAlloc h2 (Obj.vdict (buildOld h bound).2)).2)]),
        (heapAlloc h2 (Obj.vdict (buildOld h bound).2)).1) ∧
    wrapperCall fn conditions fns_enforcing a kw h =
      (match checkPosts (fn.globals ++ (bound ++
            [("__return__", ret),
             ("__old__", (heapAlloc h2 (Obj.vdict (buildOld h bound).2)).2)]))
          (heapAlloc h2 (Obj.vdict (buildOld h bound).2)).1 conditions.post with
        | Except.error e => Except.error e
        | Except.ok _ =>
          Except.ok ((heapAlloc h2 (Obj.vdict (buildOld h bound).2)).1, ret)) ∧
    dlookup (fn.globals ++ (bound ++
        [("__return__", ret),
         ("__old__", (heapAlloc h2 (Obj.vdict (buildOld h bound).2)).2)]))
      "__return__" = some ret ∧
    (dlookup (fn.globals ++ (bound ++
        [("__return__", ret),
         ("__old__", (heapAlloc h2 (Obj.vdict (buildOld h bound).2)).2)]))
      "__old__" = some (heapAlloc h2 (Obj.vdict (buildOld h bound).2)).2 ∧
     getObj (heapAlloc h2 (Obj.vdict (buildOld h bound).2)).1
        (heapAlloc h2 (Obj.vdict (buildOld h bound).2)).2
      = Obj.vdict (buildOld h bound).2) ∧
    (∀ nm rr, dlookup bound nm = some rr →
      ∃ r', dlookup (buildOld h bound).2 nm = some r' ∧
        getObj (heapAlloc h2 (Obj.vdict (buildOld h bound).2)).1 r' = getObj h rr) ∧
    (∀ nm, nm ≠ "__return__" → nm ≠ "__old__" → ∀ rr, dlookup bound nm = some rr →
      dlookup (fn.globals ++ (bound ++
          [("__return__", ret),
           ("__old__", (heapAlloc h2 (Obj.vdict (buildOld h bound).2)).2)]))
        nm = some rr) := by
  have hbind' : conditions.sig.bind a kw = Except.ok bound := by rw [hsig]; exact hbind
  refine ⟨?_, ?_, ?_, ⟨?_, ?_⟩, ?_, ?_⟩
  · unfold postEnvOf
    rw [hbind']
    simp only [hcall]
  · rw [wrapperCall_stages fn conditions fns_enforcing a kw h bound hre hbind' hmut, hpres]
    simp only [hcall]
  · rw [dlookup_append, dlookup_append]
    rfl
  · rw [dlookup_append, dlookup_append]
    rfl
  · simp only [heapAlloc]
    exact getObj_concat_length _ _
  · intro nm rr hlk
    obtain ⟨r', hl', hge', hlt', hobj'⟩ := buildOld_lookup bound h hvalid nm rr hlk
    refine ⟨r', hl', ?_⟩
    rw [callFn_eq fn a kw _ bound hbind] at hcall
    rcases hbody : fn.body ((bound.map Prod.snd).map (getObj (buildOld h bound).1))
      with e | ⟨newVals, retObj⟩
    · rw [hbody] at hcall; cases hcall
    · rw [hbody] at hcall
      injection hcall with hd
      have hd1 : writeBack (buildOld h bound).1 ((bound.map Prod.snd).zip newVals)
          ++ [retObj] = h2 := congrArg Prod.fst hd
      have hne : ∀ q ∈ (bound.map Prod.snd).zip newVals, q.1 ≠ r' := by
        intro q hq
        obtain ⟨hq1, hq2⟩ := List.of_mem_zip hq
        obtain ⟨p, hp, hpe⟩ := List.mem_map.mp hq1
        have hql : q.1 < h.length := hpe ▸ hvalid p hp
        exact Nat.ne_of_lt (Nat.lt_of_lt_of_le hql hge')
      rw [← hd1]
      simp only [heapAlloc]
      rw [getObj_append_left _ _ _ ?lt1, getObj_append_left _ _ _ ?lt2,
        getObj_writeBack_ne _ _ _ hne, hobj']
      case lt1 =>
        rw [List.length_append, writeBack_length, List.length_cons, List.length_nil]
        exact Nat.lt_succ_of_lt hlt'
      case lt2 =>
        rw [writeBack_length]
        exact hlt'
  · intro nm hnr hno rr hlk
    have hnone : dlookup
        [("__return__", ret),
         ("__old__", (heapAlloc h2 (Obj.vdict (buildOld h bound).2)).2)] nm = none :=
      dlookup_pair_ne _ _ _ (fun hh => hnr hh.symm) (fun hh => hno hh.symm)
    rw [dlookup_append, dlookup_append]
    simp only [hnone, hlk]

/-- Witness for C7: the body replaces the list argument in place, yet the
snapshot entry for it still dereferences to the pre-call contents. -/
theorem c7_postconditions_see_snapshot_witness :
    ∃ r', dlookup (buildOld [Obj.vlist [1, 2]] [("x", 0)]).2 "x" = some r' ∧
      getObj (heapAlloc [Obj.vlist [9], Obj.vlist [1, 2], Obj.vnone]
          (Obj.vdict (buildOld [Obj.vlist [1, 2]] [("x", 0)]).2)).1 r'
        = getObj [Obj.vlist [1, 2]] 0 := by
  exact (c7_postconditions_see_snapshot
    { id := 0, sig := { params := [{ name := "x", default := none }] },
      globals := [], body := fun _ => Except.ok ([Obj.vlist [9]], Obj.vnone) }
    { sig := { params := [{ name := "x", default := none }] },
      pre := [], post := [{ expr := fun _ _ => true, filename := "c.py", line := 3 }],
      mutable_args := ["x"] }
    [] [0] [] [Obj.vlist [1, 2]]
    [("x", 0)] [Obj.vlist [9], Obj.vlist [1, 2], Obj.vnone] 2
    rfl rfl (by decide) rfl rfl rfl rfl).2.2.2.2.1 "x" 0 rfl

/-- C9: wrapping a callable that carries no conditions (and that is not
already cached or registered) returns the identical reference, and scope
activation leaves an environment binding holding such a callable
untouched — the same reference before and after. -/
theorem c9_no_conditions_wrapping_is_identity (P : Provider) (s : EState)
    (f : Nat) (k : String)
    (hnc : P.fnHasConds f = false)
    (hw : nlookup s.wrapper_map f = none)
    (ho : nlookup s.original_map f = none) :
    (wrap_fn P s f none).2 = f ∧
    (enter_value P s (SVal.func f)).2 = SVal.func f ∧
    (enter_env P s [(k, SVal.func f)]).2 = [(k, SVal.func f)] := by
  have h1 : wrap_fn P s f none =
      ({ s with wrapper_map := (f, f) :: s.wrapper_map,
                original_map := (f, f) :: s.original_map }, f) := by
    unfold wrap_fn
    rw [hw, ho, hnc]
    rfl
  have h2 : enter_value P s (SVal.func f) =
      ({ s with wrapper_map := (f, f) :: s.wrapper_map,
                original_map := (f, f) :: s.original_map }, SVal.func f) := by
    show (let p := wrap_fn P s f none
      if p.2 = f then (p.1, SVal.func f) else (p.1, SVal.func p.2)) = _
    rw [h1]
    simp
  refine ⟨by rw [h1], by rw [h2], ?_⟩
  show (let p := enter_value P s (SVal.func f)
    let q := enter_env P p.1 []
    (q.1, (k, p.2) :: q.2)).2 = [(k, SVal.func f)]
  rw [h2]
  rfl

/-- Witness for C9 at a fresh scope over one conditionless callable. -/
theorem c9_no_conditions_wrapping_is_identity_witness :
    (wrap_fn
      { fnHasConds := fun _ => false, classHasAny := fun _ => false,
        classMethodConds := fun _ _ => none }
      (initState 1 []) 0 none).2 = 0 ∧
    (enter_value
      { fnHasConds := fun _ => false, classHasAny := fun _ => false,
        classMethodConds := fun _ _ => none }
      (initState 1 []) (SVal.func 0)).2 = SVal.func 0 ∧
    (enter_env
      { fnHasConds := fun _ => false, classHasAny := fun _ => false,
        classMethodConds := fun _ _ => none }
      (initState 1 []) [("g", SVal.func 0)]).2 = [("g", SVal.func 0)] :=
  c9_no_conditions_wrapping_is_identity _ _ 0 "g" rfl rfl rfl

/-- C2 counterexample: in a fresh scope, wrapping callable `0`, which
carries no conditions, returns the identical value yet adds an identity
registry entry for it — afterwards `is_enforcement_wrapper` reports the
plain callable as an instrumented wrapper, refuting "wrapping a callable
that carries no conditions adds no registry entry". -/
theorem c2_registry_counterexample :
    (wrap_fn
      { fnHasConds := fun _ => false, classHasAny := fun _ => false,
        classMethodConds := fun _ _ => none }
      (initState 1 []) 0 none).2 = 0 ∧
    is_enforcement_wrapper
      (wrap_fn
        { fnHasConds := fun _ => false, classHasAny := fun _ => false,
          classMethodConds := fun _ _ => none }
        (initState 1 []) 0 none).1
      (SVal.func 0) = true :=
  ⟨rfl, rfl⟩

/-- C2 amended: `is_enforcement_wrapper` reports exactly the registry
domain; every first-time wrap of a callable registers the returned value
— a fresh wrapper maps to its original, and a conditionless callable is
registered mapping to itself — and deactivation removes no registry
entries. -/
theorem c2_registry_lifecycle :
    (∀ (s : EState) (f : Nat),
      is_enforcement_wrapper s (SVal.func f) = (nlookup s.original_map f).isSome) ∧
    (∀ (P : Provider) (s : EState) (f : Nat) (oc : Option Bool),
      nlookup s.wrapper_map f = none → nlookup s.original_map f = none →
      nlookup (wrap_fn P s f oc).1.original_map (wrap_fn P s f oc).2 = some f) ∧
    (∀ (s : EState) (envs : List (List (String × SVal))),
      (exit_scope s envs).1.original_map = s.original_map ∧
      (exit_scope s envs).1.wrapper_map = s.wrapper_map) := by
  refine ⟨fun s f => rfl, ?_, fun s envs => exit_scope_maps envs s⟩
  intro P s f oc hw ho
  unfold wrap_fn
  rw [hw, ho]
  cases hca : oc.getD (P.fnHasConds f) <;> simp [hca, nlookup]

/-- Witness for C2 amended: a freshly created wrapper for a
contract-carrying callable is registered, and a deactivation pass over an
environment still holding it removes nothing. -/
theorem c2_registry_lifecycle_witness :
    nlookup
      (wrap_fn
        { fnHasConds := fun _ => true, classHasAny := fun _ => false,
          classMethodConds := fun _ _ => none }
        (initState 1 []) 0 none).1.original_map
      (wrap_fn
        { fnHasConds := fun _ => true, classHasAny := fun _ => false,
          classMethodConds := fun _ _ => none }
        (initState 1 []) 0 none).2 = some 0 ∧
    (exit_scope
      (wrap_fn
        { fnHasConds := fun _ => true, classHasAny := fun _ => false,
          classMethodConds := fun _ _ => none }
        (initState 1 []) 0 none).1
      [[("g", SVal.func 1)]]).1.original_map
    = (wrap_fn
        { fnHasConds := fun _ => true, classHasAny := fun _ => false,
          classMethodConds := fun _ _ => none }
        (initState 1 []) 0 none).1.original_map :=
  ⟨c2_registry_lifecycle.2.1 _ _ 0 none rfl rfl,
   (c2_registry_lifecycle.2.2 _ [[("g", SVal.func 1)]]).1⟩

/-- C3 counterexample: a fresh scope over one environment binding a
type-dispatching callable (dispatcher object `1` with one conditionless
overload `0`): after activation followed by deactivation, the binding
holds a freshly constructed dispatcher object (id `6`), not the very same
object it held before activation (id `1`) — bit-identical restoration
fails for type-dispatching callables. -/
theorem c3_dispatcher_not_restored_counterexample :
    (exit_scope
      (enter_scope
        { fnHasConds := fun _ => false, classHasAny := fun _ => false,
          classMethodConds := fun _ _ => none }
        (initState 5 []) [[("d", SVal.disp 1 [0])]]).1
      (enter_scope
        { fnHasConds := fun _ => false, classHasAny := fun _ => false,
          classMethodConds := fun _ _ => none }
        (initState 5 []) [[("d", SVal.disp 1 [0])]]).2).2
    = [[("d", SVal.disp 6 [0])]] ∧
    SVal.disp 6 [0] ≠ SVal.disp 1 [0] := by
  exact ⟨rfl, by decide⟩

/-- C3 amended: for a freshly constructed scope over any environments
whose values are world objects (ids below the scope's fresh-id floor
`N`), activation followed by deactivation restores every touched key:
keys bound to plain functions (with or without conditions), classes, and
other values come back to the very same object reference, while keys
bound to type-dispatching callables come back as a dispatcher object over
the original implementations (a fresh object — the part the
counterexample refutes in the original claim). -/
theorem c3_scope_roundtrip_restores_bindings (P : Provider) (N : Nat)
    (cT : List (Nat × List (String × Nat))) (envs : List (List (String × SVal)))
    (hb : ∀ env ∈ envs, ∀ e ∈ env, valBound N e.2)
    (htb : ∀ t ∈ cT, ∀ e ∈ t.2, e.2 < N) :
    List.Forall₂ (fun env env'' =>
      List.Forall₂ (fun e e'' => e''.1 = e.1 ∧ restoredVal e.2 e''.2) env env'')
      envs
      (exit_scope (enter_scope P (initState N cT) envs).1
        (enter_scope P (initState N cT) envs).2).2 := by
  have hInv0 : Inv N (initState N cT) :=
    ⟨Nat.le_refl N, fun k w h => Option.noConfusion h,
     fun k v h => Option.noConfusion h, fun k _ => ⟨rfl, rfl⟩⟩
  have hT0 : TInv N (initState N cT) := fun t ht e he => Or.inl (htb t ht e he)
  obtain ⟨hI1, hG1, hT1, hF1⟩ :=
    enter_scope_spec P N envs (initState N cT) hInv0 hT0 hb
  exact exit_scope_spec envs (enter_scope P (initState N cT) envs).2
    (enter_scope P (initState N cT) envs).1 hF1

/-- Witness for C3 amended: one environment holding a contract-carrying
function, a class with a contracted method, and a dispatcher, over a
fresh scope. -/
theorem c3_scope_roundtrip_restores_bindings_witness :
    List.Forall₂ (fun env env'' =>
      List.Forall₂ (fun e e'' => e''.1 = e.1 ∧ restoredVal e.2 e''.2) env env'')
      [[("f", SVal.func 0), ("c", SVal.cls 3), ("d", SVal.disp 1 [0])]]
      (exit_scope
        (enter_scope
          { fnHasConds := fun f => f == 0, classHasAny := fun c => c == 3,
            classMethodConds := fun c m => if c == 3 && m == 2 then some true else none }
          (initState 5 [(3, [("m", 2)])])
          [[("f", SVal.func 0), ("c", SVal.cls 3), ("d", SVal.disp 1 [0])]]).1
        (enter_scope
          { fnHasConds := fun f => f == 0, classHasAny := fun c => c == 3,
            classMethodConds := fun c m => if c == 3 && m == 2 then some true else none }
          (initState 5 [(3, [("m", 2)])])
          [[("f", SVal.func 0), ("c", SVal.cls 3), ("d", SVal.disp 1 [0])]]).2).2 := by
  refine c3_scope_roundtrip_restores_bindings _ 5 _ _ ?_ ?_
  · intro env henv e he
    simp only [List.mem_singleton] at henv
    subst henv
    simp only [List.mem_cons, List.not_mem_nil, or_false] at he
    rcases he with rfl | rfl | rfl <;> simp [valBound]
  · intro t ht e he
    simp only [List.mem_singleton] at ht
    subst ht
    simp only [List.mem_singleton] at he
    subst he
    decide

end CrossHairEnforce
